import Mathlib

/-!
Shallow embedding of the repository-scan-and-analyze pipeline implemented by
class `AutomatedLeetCodeSystem` in
`src/agentify/LeetCodeAgent_Backend/gemini_integration.py`.

Python strings are modelled as Lean `String` (operations are defined on the
underlying character lists); the external collaborators (GitHub listing and
download, the Gemini HTTP call, `json.loads`, the PostgreSQL connection) are
parameters of the definitions, while every piece of logic of the source file
itself (regexes, filtering, batching, prompt building, response merging,
ON CONFLICT upsert semantics) is embedded as executable Lean code.
-/

/-- ASCII whitespace set recognised by Python `str.strip()`:
space, tab, newline, carriage return, vertical tab, form feed. -/
def isPyWS (c : Char) : Bool :=
  c == ' ' || c == '\t' || c == '\n' || c == '\r' || c.toNat == 11 || c.toNat == 12

def pyStripL (s : List Char) : List Char :=
  ((s.dropWhile isPyWS).reverse.dropWhile isPyWS).reverse

/-- Python `str.strip()` (whitespace on both ends). -/
def pyStrip (s : String) : String := ⟨pyStripL s.data⟩

/-- `isPre pat s`: the list `s` starts with the literal `pat`. -/
def isPre : List Char → List Char → Bool
  | [], _ => true
  | _ :: _, [] => false
  | p :: ps, c :: cs => p == c && isPre ps cs

/-- Drop the literal `pat` from the front of `s`, if present. -/
def dropLit : List Char → List Char → Option (List Char)
  | [], s => some s
  | _ :: _, [] => none
  | p :: ps, c :: cs => if p == c then dropLit ps cs else none

/-- Core of Python `str.replace` for a non-empty pattern `p :: ps`:
replace non-overlapping occurrences, scanning left to right. -/
def replCore (p : Char) (ps : List Char) (new : List Char) : List Char → List Char
  | [] => []
  | c :: rest =>
    if isPre (p :: ps) (c :: rest) then new ++ replCore p ps new (rest.drop ps.length)
    else c :: replCore p ps new rest
termination_by s => s.length
decreasing_by
  · simp [List.length_drop]; omega
  · simp

/-- Fuel-driven version of `replCore` (structurally recursive, so that
concrete instances reduce in the kernel); agrees with `replCore` whenever
the fuel covers the input length. -/
def replFuel (p : Char) (ps new : List Char) : Nat → List Char → List Char
  | _, [] => []
  | 0, s => s
  | fuel + 1, c :: rest =>
    if isPre (p :: ps) (c :: rest) then new ++ replFuel p ps new fuel (rest.drop ps.length)
    else c :: replFuel p ps new fuel rest

/-- `new` inserted after every element (helper for the empty-pattern edge of
Python `str.replace`). -/
def interAfter (new : List Char) : List Char → List Char
  | [] => []
  | c :: cs => c :: (new ++ interAfter new cs)

/-- Python `str.replace old new` on character lists, including the
empty-pattern edge case (an empty `old` inserts `new` at every boundary). -/
def pyReplaceL (old new s : List Char) : List Char :=
  match old with
  | [] => new ++ interAfter new s
  | p :: ps => replFuel p ps new s.length s

/-- Python `s.replace(old, new)`. -/
def pyReplace (old new s : String) : String := ⟨pyReplaceL old.data new.data s.data⟩

/-- Python `re.search` over a character list: try the matcher at every start
position, leftmost first (the final position, the empty suffix, included). -/
def reSearch {α : Type} (m : List Char → Option α) : List Char → Option α
  | [] => m []
  | c :: cs =>
    match m (c :: cs) with
    | some r => some r
    | none => reSearch m cs

def notSlash (c : Char) : Bool := !(c == '/')

def notNL (c : Char) : Bool := !(c == '\n')

/-- The literal `github.com/` fragment of both URL regexes. -/
def ghLit : List Char := "github.com/".data

/-- Matcher for the regex `github\.com/([^/]+)/([^/]+)` anchored at the
current position: each `[^/]+` group is a greedy non-slash run. -/
def matchRegularAt (s : List Char) : Option (String × String) :=
  match dropLit ghLit s with
  | none => none
  | some r1 =>
    if (r1.takeWhile notSlash).isEmpty then none
    else
      match r1.dropWhile notSlash with
      | '/' :: r3 =>
        if (r3.takeWhile notSlash).isEmpty then none
        else some (⟨r1.takeWhile notSlash⟩, ⟨r3.takeWhile notSlash⟩)
      | _ => none

/-- Matcher for the regex `github\.com/([^/]+)/([^/]+)/tree/[^/]+/(.+)`
anchored at the current position; `.` does not match a newline. -/
def matchTreeAt (s : List Char) : Option (String × String × String) :=
  match dropLit ghLit s with
  | none => none
  | some r1 =>
    if (r1.takeWhile notSlash).isEmpty then none
    else
      match r1.dropWhile notSlash with
      | '/' :: r3 =>
        if (r3.takeWhile notSlash).isEmpty then none
        else
          match dropLit "/tree/".data (r3.dropWhile notSlash) with
          | none => none
          | some r5 =>
            if (r5.takeWhile notSlash).isEmpty then none
            else
              match r5.dropWhile notSlash with
              | '/' :: r7 =>
                if (r7.takeWhile notNL).isEmpty then none
                else some (⟨r1.takeWhile notSlash⟩, ⟨r3.takeWhile notSlash⟩,
                  ⟨r7.takeWhile notNL⟩)
              | _ => none
      | _ => none

/-- Python `url.rstrip('/')`: remove every trailing slash. -/
def rstripSlashL (s : List Char) : List Char :=
  (s.reverse.dropWhile (fun c => c == '/')).reverse

/-- `AutomatedLeetCodeSystem.parse_github_url` (gemini_integration.py:36-52).
Strips trailing slashes, tries the tree-URL regex, then the plain regex; the
captured repo name has every occurrence of `.git` removed (the source uses
`str.replace`, which is not suffix-only); raises `ValueError` — modelled as
`Except.error` — when neither regex matches. -/
def parse_github_url (url : String) : Except String (String × String × String) :=
  match reSearch matchTreeAt (rstripSlashL url.data) with
  | some (o, r, p) => .ok (o, pyReplace ".git" "" r, p)
  | none =>
    match reSearch matchRegularAt (rstripSlashL url.data) with
    | some (o, r) => .ok (o, pyReplace ".git" "" r, "")
    | none => .error "Invalid GitHub URL format"

/-- `needle in hay` core (Python substring containment) on character lists. -/
def containsSubL (needle : List Char) : List Char → Bool
  | [] => isPre needle []
  | c :: cs => isPre needle (c :: cs) || containsSubL needle cs

/-- Python `needle in hay` for strings. -/
def containsSub (hay needle : String) : Bool := containsSubL needle.data hay.data

/-- Python `s.endswith(suffix)`. -/
def pyEndsWith (s suffix : String) : Bool := List.isSuffixOf suffix.data s.data

/-- Python `s.lower()` (ASCII letters; the substrings the pipeline tests are
ASCII, where `str.lower` and `Char.toLower` agree). -/
def lowerStr (s : String) : String := ⟨s.data.map Char.toLower⟩

/-- Recognized source-code extensions
(`AutomatedLeetCodeSystem.is_code_file`, gemini_integration.py:93-96). -/
def extensions : List String :=
  [".py", ".java", ".cpp", ".c", ".js", ".ts", ".go", ".rs", ".rb", ".php",
   ".swift", ".kt", ".cs"]

def is_code_file (filename : String) : Bool :=
  extensions.any (fun ext => pyEndsWith filename ext)

/-- Extension-to-language table
(`AutomatedLeetCodeSystem.get_language`, gemini_integration.py:117-128);
the iteration order is the Python dict insertion order. -/
def ext_map : List (String × String) :=
  [(".py", "Python"), (".java", "Java"), (".cpp", "C++"), (".c", "C"),
   (".js", "JavaScript"), (".ts", "TypeScript"), (".go", "Go"),
   (".rs", "Rust"), (".rb", "Ruby"), (".php", "PHP"), (".swift", "Swift"),
   (".kt", "Kotlin"), (".cs", "C#")]

def get_language (filename : String) : String :=
  match ext_map.find? (fun pr => pyEndsWith filename pr.1) with
  | some pr => pr.2
  | none => "Unknown"

/-- Matcher for the regex `(\d{1,4})` anchored at the current position:
succeeds when the head is a digit; the greedy group is the digit run capped
at four characters. -/
def digitMatchAt (s : List Char) : Option String :=
  match s with
  | [] => none
  | c :: _ => if c.isDigit then some ⟨(s.takeWhile Char.isDigit).take 4⟩ else none

/-- The optional `[_-]?` separator of the problem-path regex: consume one
`-` or `_` when present (backtracking is irrelevant: a separator character is
never a digit, so skipping it could not save a failing `\d{4}`). -/
def sepSkip (r : List Char) : List Char :=
  match r with
  | c :: cs => if c == '-' || c == '_' then cs else c :: cs
  | [] => []

/-- Matcher for the regex `problem[_-]?(\d{4})` anchored at the current
position. -/
def problemPatAt (s : List Char) : Option String :=
  match dropLit "problem".data s with
  | none => none
  | some r =>
    if ((sepSkip r).take 4).length == 4 && ((sepSkip r).take 4).all Char.isDigit
    then some ⟨(sepSkip r).take 4⟩ else none

/-- `AutomatedLeetCodeSystem.extract_problem_number`
(gemini_integration.py:107-115): first `re.search(r'(\d{1,4})', filename)`,
then `re.search(r'problem[_-]?(\d{4})', path)`, otherwise `"Unknown"`. -/
def extract_problem_number (filename path : String) : String :=
  match reSearch digitMatchAt filename.data with
  | some d => d
  | none =>
    match reSearch problemPatAt path.data with
    | some d => d
    | none => "Unknown"

/-- The record built for each matched file by
`AutomatedLeetCodeSystem.scan_repository` (gemini_integration.py:146-152).
The spec calls this entity SourceFile. -/
structure SourceFile where
  filename : String
  path : String
  code : String
  language : String
  problem_number : String
deriving DecidableEq

/-- The metadata of one GitHub directory entry as used by the scan:
`name`, `path` and `download_url` of the JSON item. -/
structure ItemMeta where
  name : String
  path : String
  download_url : String
deriving DecidableEq

/-- A directory listing as served by the code host, as a first-order tree:
`nilE` is the empty listing, `fileE m rest` a file entry followed by the rest
of the listing, and `dirE m children rest` a directory entry whose own
listing is `children`, followed by the rest. This encodes exactly the nested
lists of GitHub contents responses; the remote filesystem is finite and
acyclic, so a well-founded tree is a faithful model of the recursive
listing calls. -/
inductive GTree : Type where
  | nilE : GTree
  | fileE : ItemMeta → GTree → GTree
  | dirE : ItemMeta → GTree → GTree → GTree

/-- The record appended for a matched file (gemini_integration.py:146-152). -/
def mkSourceFile (m : ItemMeta) (code : String) : SourceFile :=
  { filename := m.name, path := m.path, code := code,
    language := get_language m.name,
    problem_number := extract_problem_number m.name m.path }

/-- One file item of the scan loop (gemini_integration.py:139-152): a file
entry is yielded iff it has a recognized extension, its path does not contain
`test` or `helper` (lowercased), and its downloaded content is non-empty
(`get_file_content` returns `""` on any download failure, and falsy content
is skipped by `if code:`). -/
def scanFileItem (fetch : String → String) (m : ItemMeta) : List SourceFile :=
  if is_code_file m.name then
    if containsSub (lowerStr m.path) "test" || containsSub (lowerStr m.path) "helper" then []
    else
      let code := fetch m.download_url
      if code == "" then [] else [mkSourceFile m code]
  else []

/-- `AutomatedLeetCodeSystem.scan_repository` (gemini_integration.py:130-156)
as a function of the content oracle `fetch` (modelling `get_file_content`)
and the directory tree rooted at the starting path: walk the listing in
order, yielding matched files and recursing into directories. -/
def scan_repository (fetch : String → String) : GTree → List SourceFile
  | GTree.nilE => []
  | GTree.fileE m rest => scanFileItem fetch m ++ scan_repository fetch rest
  | GTree.dirE _ cs rest => scan_repository fetch cs ++ scan_repository fetch rest

/-- One decoded analysis object, modelling a Python dict with these keys;
`none` models an absent key. Produced by the Gemini reply decoding and by
the per-batch default records, consumed by the database upsert via
`sol.get(key, default)`. -/
structure AnalysisDict where
  problem_number : Option String := none
  problem_title : Option String := none
  difficulty : Option String := none
  language : Option String := none
  time_complexity : Option String := none
  space_complexity : Option String := none
  algorithms : Option (List String) := none
  data_structures : Option (List String) := none
  explanation : Option String := none
  tags : Option (List String) := none
  code : Option String := none
  path : Option String := none
deriving DecidableEq

/-- The fixed header of the Gemini prompt
(`create_gemini_prompt`, gemini_integration.py:256-275). -/
def geminiHeader : String :=
  "Analyze these LeetCode solutions and return ONLY a valid JSON array with no markdown formatting.\n\nFor each solution, provide this structure:\n\x7b\n  \"problem_number\": \"extract the number\",\n  \"problem_title\": \"proper LeetCode problem title\",\n  \"difficulty\": \"Easy/Medium/Hard\",\n  \"time_complexity\": \"O(n) format\",\n  \"space_complexity\": \"O(n) format\",\n  \"algorithms\": [\"algorithm1\", \"algorithm2\"],\n  \"data_structures\": [\"structure1\"],\n  \"explanation\": \"brief explanation under 150 chars\",\n  \"tags\": [\"tag1\", \"tag2\"]\n\x7d\n\nReturn format: [\x7b\"problem_number\":\"1\",...\x7d,\x7b\"problem_number\":\"2\",...\x7d]\nNo backticks, no markdown, just pure JSON array.\n\nSolutions to analyze:\n"

/-- Python slicing `s[:n]`: the first `n` characters. -/
def pyTake (n : Nat) (s : String) : String := ⟨s.data.take n⟩

/-- The per-file fragment appended to the prompt, for the 1-based index `i`
(gemini_integration.py:277-281); the code excerpt is capped at 1200
characters by the slice `p['code'][:1200]`. -/
def promptSection (i : Nat) (p : SourceFile) : String :=
  "\n--- Solution " ++ toString i ++ " ---\n" ++
  "File: " ++ p.filename ++ "\n" ++
  "Language: " ++ p.language ++ "\n" ++
  "Code:\n" ++ pyTake 1200 p.code ++ "\n"

def promptSections (i : Nat) : List SourceFile → String
  | [] => ""
  | p :: ps => promptSection i p ++ promptSections (i + 1) ps

/-- `AutomatedLeetCodeSystem.create_gemini_prompt`
(gemini_integration.py:254-283). -/
def create_gemini_prompt (problems : List SourceFile) : String :=
  geminiHeader ++ promptSections 1 problems

/-- The merge loop of `parse_gemini_response` (gemini_integration.py:300-305):
the i-th decoded entry receives the i-th original file's code and path, and a
missing language key is backfilled from the original; decoded entries beyond
the originals are kept as decoded (`if i < len(original_problems)`). -/
def mergeEntries : List AnalysisDict → List SourceFile → List AnalysisDict
  | [], _ => []
  | e :: es, [] => e :: mergeEntries es []
  | e :: es, p :: ps =>
    { e with code := some p.code, path := some p.path,
             language := match e.language with
                         | none => some p.language
                         | some l => some l } :: mergeEntries es ps

def findCharIdx (c : Char) (s : List Char) : Option Nat :=
  s.findIdx? (fun x => x == c)

/-- Python `s.rfind(c)` (index of the last occurrence). -/
def rfindCharIdx (c : Char) (s : List Char) : Option Nat :=
  match s.reverse.findIdx? (fun x => x == c) with
  | none => none
  | some i => some (s.length - 1 - i)

/-- `AutomatedLeetCodeSystem.parse_gemini_response`
(gemini_integration.py:285-314): strip code fences and whitespace, slice the
substring from the first `[` to the last `]`, decode it, and merge with the
original batch. The parameter `decode` models `json.loads` restricted to a
JSON array of objects with the expected string-or-list fields; `none` models
every failing outcome (`JSONDecodeError`, a non-array payload, non-dict
entries), for which the source returns `[]` through its two `except` arms.
A missing `[` or `]` also returns `[]`. -/
def parse_gemini_response (decode : String → Option (List AnalysisDict))
    (response : String) (original_problems : List SourceFile) : List AnalysisDict :=
  let cleaned := pyStrip (pyReplace "```" "" (pyReplace "```json" "" response))
  let cl := cleaned.data
  match findCharIdx '[' cl, rfindCharIdx ']' cl with
  | some start, some last =>
    let json_str : String := ⟨(cl.drop start).take (last + 1 - start)⟩
    match decode json_str with
    | none => []
    | some analyzed => mergeEntries analyzed original_problems
  | _, _ => []

/-- The default record appended for every file of a batch whose generation
call raised (gemini_integration.py:230-246). -/
def failedRec (p : SourceFile) : AnalysisDict :=
  { problem_number := some p.problem_number,
    problem_title := some p.filename,
    difficulty := some "Unknown",
    language := some p.language,
    time_complexity := some "Unknown",
    space_complexity := some "Unknown",
    algorithms := some [],
    data_structures := some [],
    explanation := some "Analysis failed",
    tags := some [],
    code := some p.code,
    path := some p.path }

/-- `p['filename'].replace(p['language'].lower(), '').replace('.', ' ').strip()`
(gemini_integration.py:218). -/
def pendingTitle (p : SourceFile) : String :=
  pyStrip (pyReplace "." " " (pyReplace (lowerStr p.language) "" p.filename))

/-- The default record appended for every file of a batch whose reply could
not be parsed into a non-empty list (gemini_integration.py:213-229). -/
def pendingRec (p : SourceFile) : AnalysisDict :=
  { problem_number := some p.problem_number,
    problem_title := some (pendingTitle p),
    difficulty := some "Unknown",
    language := some p.language,
    time_complexity := some "Unknown",
    space_complexity := some "Unknown",
    algorithms := some [],
    data_structures := some [],
    explanation := some "Analysis pending",
    tags := some [],
    code := some p.code,
    path := some p.path }

/-- The observable external actions of one `analyze_with_gemini` run: one
generation call per batch (issued even when it fails) and the fixed
`time.sleep(2)` cooldown. -/
inductive GeminiEvent where
  | call : String → GeminiEvent
  | sleep : Nat → GeminiEvent
deriving DecidableEq

/-- The body of one batch iteration of `analyze_with_gemini`
(gemini_integration.py:204-246): call the API with the batch prompt; on an
exception append `failedRec` for every file; on a reply that parses to an
empty (falsy) list append `pendingRec` for every file; otherwise extend with
the parsed records. The parameter `api` models `call_gemini_api`: `ok` is the
returned text, `error` any raised exception (HTTP error or timeout). -/
def processBatch (api : String → Except String String)
    (decode : String → Option (List AnalysisDict))
    (batch : List SourceFile) : List AnalysisDict :=
  match api (create_gemini_prompt batch) with
  | Except.error _ => batch.map failedRec
  | Except.ok response =>
    match parse_gemini_response decode response batch with
    | [] => batch.map pendingRec
    | analyzed => analyzed

/-- `AutomatedLeetCodeSystem.analyze_with_gemini`
(gemini_integration.py:191-252): process the input in slices
`problems[i:i+3]`; the second component is the trace of external actions —
the loop sleeps two seconds after a batch iff `i + batch_size < len(problems)`,
i.e. iff a later batch exists. -/
def analyze_with_gemini (api : String → Except String String)
    (decode : String → Option (List AnalysisDict)) :
    List SourceFile → List AnalysisDict × List GeminiEvent
  | [] => ([], [])
  | [p] =>
    (processBatch api decode [p], [GeminiEvent.call (create_gemini_prompt [p])])
  | [p, q] =>
    (processBatch api decode [p, q], [GeminiEvent.call (create_gemini_prompt [p, q])])
  | p :: q :: r :: rest =>
    let batch := [p, q, r]
    let tail := analyze_with_gemini api decode rest
    (processBatch api decode batch ++ tail.1,
     GeminiEvent.call (create_gemini_prompt batch) ::
       ((if rest.isEmpty then [] else [GeminiEvent.sleep 2]) ++ tail.2))

/-- The batch partition `problems[i:i+3]` of the loop
`for i in range(0, len(problems), 3)`, as a standalone list operation. -/
def chunks3 {α : Type} : List α → List (List α)
  | [] => []
  | [a] => [[a]]
  | [a, b] => [[a, b]]
  | a :: b :: c :: rest => [a, b, c] :: chunks3 rest

def joinL {α : Type} : List (List α) → List α
  | [] => []
  | l :: ls => l ++ joinL ls

/-- The expected action trace for a batch partition: one call per batch and
a 2-unit sleep between consecutive batches, none after the last. -/
def eventTrace : List (List SourceFile) → List GeminiEvent
  | [] => []
  | [b] => [GeminiEvent.call (create_gemini_prompt b)]
  | b :: rest =>
    GeminiEvent.call (create_gemini_prompt b) :: GeminiEvent.sleep 2 :: eventTrace rest

/-- One row of the `leetcode_solutions` table (gemini_integration.py:322-341);
`id` is not modelled, `created_at` is an abstract insertion timestamp taken
from the table's clock. `user_email` is nullable: `store_in_database` has
default `user_email=None` and `process_repository` forwards its own optional
argument. -/
structure StoredRow where
  problem_number : String
  problem_title : String
  difficulty : String
  language : String
  time_complexity : String
  space_complexity : String
  algorithms : List String
  data_structures : List String
  explanation : String
  tags : List String
  code : String
  file_path : String
  user_email : Option String
  created_at : Nat
deriving DecidableEq

structure SolutionsTable where
  rows : List StoredRow
  clock : Nat
deriving DecidableEq

def emptyTable : SolutionsTable := { rows := [], clock := 0 }

/-- The VALUES tuple of the INSERT (gemini_integration.py:423-437): every
field is read with `sol.get(key, default)`. -/
def rowOfDict (sol : AnalysisDict) (user_email : Option String) (ts : Nat) : StoredRow :=
  { problem_number := sol.problem_number.getD "Unknown",
    problem_title := sol.problem_title.getD "Unknown",
    difficulty := sol.difficulty.getD "Unknown",
    language := sol.language.getD "Unknown",
    time_complexity := sol.time_complexity.getD "Unknown",
    space_complexity := sol.space_complexity.getD "Unknown",
    algorithms := sol.algorithms.getD [],
    data_structures := sol.data_structures.getD [],
    explanation := sol.explanation.getD "",
    tags := sol.tags.getD [],
    code := sol.code.getD "",
    file_path := sol.path.getD "",
    user_email := user_email,
    created_at := ts }

/-- The arbiter of `ON CONFLICT (problem_number, language, file_path,
user_email)` backed by `UNIQUE(problem_number, language, file_path,
user_email)`. PostgreSQL unique indexes treat NULLs as distinct (the default
NULLS DISTINCT behaviour), so a candidate row conflicts with a stored row iff
the three string key columns are equal and both `user_email` values are the
same non-NULL string; an insert carrying a NULL `user_email` never conflicts
with anything. -/
def keyConflict (pn lang fp : String) (u : Option String) (r : StoredRow) : Bool :=
  r.problem_number == pn && r.language == lang && r.file_path == fp &&
    (match u, r.user_email with
     | some a, some b => a == b
     | _, _ => false)

/-- The `DO UPDATE SET` list (gemini_integration.py:412-421): overwrite the
nine payload columns from EXCLUDED; key columns, id and created_at are not in
the SET list and keep their stored values. -/
def updateRow (cand r : StoredRow) : StoredRow :=
  { r with problem_title := cand.problem_title,
           difficulty := cand.difficulty,
           time_complexity := cand.time_complexity,
           space_complexity := cand.space_complexity,
           algorithms := cand.algorithms,
           data_structures := cand.data_structures,
           explanation := cand.explanation,
           tags := cand.tags,
           code := cand.code }

/-- One `INSERT ... ON CONFLICT ... DO UPDATE ... RETURNING (xmax = 0) AS
inserted` statement (gemini_integration.py:406-437); the Bool is the
RETURNING value (`true` iff a fresh row was inserted). -/
def upsertOne (db : SolutionsTable) (sol : AnalysisDict) (u : Option String) :
    Bool × SolutionsTable :=
  if db.rows.any (keyConflict (sol.problem_number.getD "Unknown")
      (sol.language.getD "Unknown") (sol.path.getD "") u) then
    (false, { db with rows := db.rows.map (fun r =>
        if keyConflict (sol.problem_number.getD "Unknown") (sol.language.getD "Unknown")
            (sol.path.getD "") u r then
          updateRow (rowOfDict sol u db.clock) r
        else r) })
  else
    (true, { rows := db.rows ++ [rowOfDict sol u db.clock], clock := db.clock + 1 })

/-- `AutomatedLeetCodeSystem.store_in_database`
(gemini_integration.py:395-458) given a live connection: run the upsert for
each record in order and count inserted vs updated rows from RETURNING. The
source catches per-record exceptions (environmental database faults) and
skips the record; the statement semantics itself, embedded here, never
raises, so the deterministic model performs every record. -/
def store_in_database (solutions : List AnalysisDict) (user_email : Option String)
    (db : SolutionsTable) : Nat × Nat × SolutionsTable :=
  match solutions with
  | [] => (0, 0, db)
  | sol :: rest =>
    let r1 := upsertOne db sol user_email
    let r2 := store_in_database rest user_email r1.2
    if r1.1 then (r2.1 + 1, r2.2.1, r2.2.2) else (r2.1, r2.2.1 + 1, r2.2.2)

/-- The outcome of one `process_repository` run. Every early `return` of the
source maps to a distinct failure constructor; reaching the final summary
block maps to `complete` with the printed counts (files found, records
analyzed, rows inserted, rows updated). -/
inductive RunOutcome where
  | connFailed
  | extractFailed
  | noSolutions
  | dbSetupFailed
  | storageFailed
  | complete (found analyzed inserted updated : Nat)
deriving DecidableEq

def RunOutcome.isComplete : RunOutcome → Bool
  | RunOutcome.complete _ _ _ _ => true
  | _ => false

/-- The external collaborators of one `process_repository` run:
`net_ok` models `test_connection` (gemini_integration.py:54-70) succeeding;
`tree owner repo path` is the directory tree the code host serves for the
parsed reference; `fetch` models `get_file_content`; `api`/`decode` model the
generation call and `json.loads`; `db_setup_ok` models `setup_database`
raising or not; `store_conn_ok` models the `psycopg2.connect`/`commit` of
`store_in_database` (its outer `except ... raise`); `db` is the table state
before the run. -/
structure PipelineEnv where
  net_ok : Bool
  tree : String → String → String → GTree
  fetch : String → String
  api : String → Except String String
  decode : String → Option (List AnalysisDict)
  db_setup_ok : Bool
  store_conn_ok : Bool
  db : SolutionsTable

/-- `AutomatedLeetCodeSystem.process_repository`
(gemini_integration.py:484-606). Control flow of the source: a failed
connectivity test returns early; a `parse_github_url` exception is caught by
the extraction `try` and returns early; an empty scan prints "No solutions
found!" and returns early; `analyze_with_gemini` has no raising path (all its
failure arms are internal), so its surrounding `try` never fires; a
`setup_database` or `store_in_database` exception returns early; the
remaining stages (user registration, welcome email, recommendation) catch
all their own exceptions and only print, so once storage commits the run
reaches the summary block. -/
def process_repository (env : PipelineEnv) (github_url : String)
    (user_email : Option String) : RunOutcome × SolutionsTable :=
  if !env.net_ok then (RunOutcome.connFailed, env.db)
  else
    match parse_github_url github_url with
    | Except.error _ => (RunOutcome.extractFailed, env.db)
    | Except.ok (owner, repo, start_path) =>
      let problems := scan_repository env.fetch (env.tree owner repo start_path)
      if problems.isEmpty then (RunOutcome.noSolutions, env.db)
      else
        let analyzed := (analyze_with_gemini env.api env.decode problems).1
        if !env.db_setup_ok then (RunOutcome.dbSetupFailed, env.db)
        else if !env.store_conn_ok then (RunOutcome.storageFailed, env.db)
        else
          let res := store_in_database analyzed user_email env.db
          (RunOutcome.complete problems.length analyzed.length res.1 res.2.1, res.2.2)

def c1fileA : SourceFile :=
  { filename := "one.py", path := "src/one.py", code := "a", language := "Python",
    problem_number := "1" }

def c1fileB : SourceFile :=
  { filename := "two.py", path := "src/two.py", code := "b", language := "Python",
    problem_number := "2" }

/-- A generation call that returns the reply `[{}]`: a valid JSON array
holding one empty object. -/
def c1api : String → Except String String := fun _ => Except.ok "[\x7b\x7d]"

/-- `json.loads` on the counterexample reply: `[{}]` decodes to a one-element
array whose only entry is an object with no keys; every other input is
irrelevant to the counterexample and modelled as a decoding failure. -/
def c1decode : String → Option (List AnalysisDict) :=
  fun s => if s = "[\x7b\x7d]" then some [{}] else none

def c1wapi : String → Except String String := fun _ => Except.error "boom"

def c1wdecode : String → Option (List AnalysisDict) := fun _ => none

def c9file1 : SourceFile :=
  { filename := "f1.py", path := "a/f1.py", code := "x1", language := "Python",
    problem_number := "1" }

def c9file2 : SourceFile :=
  { filename := "f2.py", path := "a/f2.py", code := "x2", language := "Python",
    problem_number := "2" }

def c9file3 : SourceFile :=
  { filename := "f3.py", path := "a/f3.py", code := "x3", language := "Python",
    problem_number := "3" }

def c9file4 : SourceFile :=
  { filename := "f4.py", path := "a/f4.py", code := "x4", language := "Python",
    problem_number := "4" }

/-- The file entries that pass the extension and test/helper filters — the
entries whose content the crawl attempts to download — regardless of what the
download returns. -/
def matchedFiles : GTree → List ItemMeta
  | GTree.nilE => []
  | GTree.fileE m rest =>
    (if is_code_file m.name &&
        !(containsSub (lowerStr m.path) "test" || containsSub (lowerStr m.path) "helper")
     then [m] else []) ++ matchedFiles rest
  | GTree.dirE _ cs rest => matchedFiles cs ++ matchedFiles rest

def c10tree : GTree :=
  GTree.fileE { name := "a.py", path := "a.py", download_url := "u1" }
    (GTree.fileE { name := "b.py", path := "b.py", download_url := "u2" } GTree.nilE)

/-- The content oracle of the C10 scenario: the first file downloads fine,
the second download fails (`get_file_content` returns `""`). -/
def c10fetch : String → String := fun u => if u = "u1" then "print(1)" else ""

/-- Claim-side reading of the leftmost `(\d{1,4})` search: skip to the first
digit of the filename, take that digit run, cap it at four characters. -/
def specFirstDigits (s : List Char) : Option String :=
  match s.dropWhile (fun c => !c.isDigit) with
  | [] => none
  | c :: cs => some ⟨((c :: cs).takeWhile Char.isDigit).take 4⟩

/-- Claim-side reading of the leftmost `problem[_-]?(\d{4})` search: the
first suffix of the path at which the pattern matches. -/
def specProblemPat (s : List Char) : Option String :=
  s.tails.findSome? problemPatAt

/-- Claim-side restatement of problem-id extraction, written from the claim's
words: the first run of 1–4 digits found in the filename; if the filename has
no digits, the four digits matched by `problem[-_]?####` in the full path;
otherwise `"Unknown"`. -/
def spec_extract (filename path : String) : String :=
  match specFirstDigits filename.data with
  | some d => d
  | none =>
    match specProblemPat path.data with
    | some d => d
    | none => "Unknown"

def countSlash (s : List Char) : Nat := s.countP (fun c => c == '/')

/-- There is an owner/repo segment after a `github.com/` occurrence. This is
the claim's acceptance condition, stated structurally. -/
def HasOwnerRepo (s : List Char) : Prop :=
  ∃ pre g1 g2 post, s = pre ++ (ghLit ++ (g1 ++ '/' :: (g2 ++ post))) ∧ g1 ≠ [] ∧
    (∀ y ∈ g1, notSlash y = true) ∧ g2 ≠ [] ∧ (∀ y ∈ g2, notSlash y = true)

/-- A valid owner/repo/branch segment: non-empty and slash-free. -/
def GoodSeg (s : String) : Prop :=
  s.data ≠ [] ∧ ∀ x ∈ s.data, notSlash x = true

/-- A valid tree-URL subpath: non-empty, newline-free (the regex `.` does not
cross a newline) and without a trailing slash (which `rstrip` would eat). -/
def GoodTail (p : String) : Prop :=
  p.data ≠ [] ∧ (∀ x ∈ p.data, notNL x = true) ∧
    ∀ c cs, p.data.reverse = c :: cs → (c == '/') = false

/-- The repo name contains no occurrence of `.git` at all. -/
def NoDotGit (r : String) : Prop := containsSub r ".git" = false

/-- Two rows collide on the composite key exactly when the three string key
columns agree and both carry the same non-NULL user; rows with a NULL
`user_email` never collide (PostgreSQL NULLS DISTINCT). -/
def sameKey (r1 r2 : StoredRow) : Prop :=
  r1.problem_number = r2.problem_number ∧ r1.language = r2.language ∧
  r1.file_path = r2.file_path ∧ ∃ s, r1.user_email = some s ∧ r2.user_email = some s

/-- The table invariant backing `UNIQUE(problem_number, language, file_path,
user_email)`: no two rows collide on the key. -/
def TableKeyUnique (db : SolutionsTable) : Prop :=
  db.rows.Pairwise (fun r1 r2 => ¬ sameKey r1 r2)

def c2sol : AnalysisDict :=
  { problem_number := some "1", problem_title := some "Two Sum",
    language := some "Python", path := some "a.py",
    explanation := some "e", code := some "c" }

def c6solA : AnalysisDict :=
  { problem_number := some "1", problem_title := some "T",
    language := some "Python", path := some "a.py",
    explanation := some "old", code := some "c" }

def c6solB : AnalysisDict :=
  { problem_number := some "1", problem_title := some "T",
    language := some "Python", path := some "a.py",
    explanation := some "new", code := some "c" }

def c6wsol : AnalysisDict :=
  { problem_number := some "2", problem_title := some "W",
    language := some "Go", path := some "b.go",
    explanation := some "x", code := some "y" }

def c4meta : ItemMeta := { name := "a.py", path := "a.py", download_url := "u" }

/-- The C4 counterexample environment: connectivity fine, the repository
reachable with one matching file, database setup fine, but the storage
connection (`psycopg2.connect`/`commit` inside `store_in_database`) fails —
its outer `except` re-raises, and `process_repository` returns from the
storage `try` without reaching the summary block. -/
def c4env : PipelineEnv :=
  { net_ok := true,
    tree := fun _ _ _ => GTree.fileE c4meta GTree.nilE,
    fetch := fun _ => "print(1)",
    api := fun _ => Except.error "down",
    decode := fun _ => none,
    db_setup_ok := true,
    store_conn_ok := false,
    db := emptyTable }

def c4wenv : PipelineEnv :=
  { net_ok := true,
    tree := fun _ _ _ => GTree.fileE c4meta GTree.nilE,
    fetch := fun _ => "print(1)",
    api := fun _ => Except.error "down",
    decode := fun _ => none,
    db_setup_ok := true,
    store_conn_ok := true,
    db := emptyTable }

theorem replFuel_eq_replCore (p : Char) (ps new : List Char) :
    ∀ fuel s, s.length ≤ fuel → replFuel p ps new fuel s = replCore p ps new s := by
  intro fuel
  induction fuel with
  | zero =>
    intro s hs
    have : s = [] := List.length_eq_zero.mp (Nat.le_zero.mp hs)
    subst this
    rw [show replFuel p ps new 0 [] = [] from rfl]
    rw [replCore]
  | succ n ih =>
    intro s hs
    match s with
    | [] =>
      rw [show replFuel p ps new (n + 1) [] = [] from rfl]
      rw [replCore]
    | c :: rest =>
      have hstep : replFuel p ps new (n + 1) (c :: rest) =
          if isPre (p :: ps) (c :: rest) then
            new ++ replFuel p ps new n (rest.drop ps.length)
          else c :: replFuel p ps new n rest := rfl
      rw [hstep, replCore]
      have hs1 : rest.length ≤ n := by
        have := hs
        simp only [List.length_cons] at this
        omega
      by_cases h : isPre (p :: ps) (c :: rest) = true
      · rw [if_pos h, if_pos h]
        have hlen : (rest.drop ps.length).length ≤ n := by
          simp only [List.length_drop]
          omega
        rw [ih _ hlen]
      · rw [if_neg h, if_neg h]
        rw [ih _ hs1]

theorem pyReplaceL_cons (p : Char) (ps new s : List Char) :
    pyReplaceL (p :: ps) new s = replCore p ps new s := by
  simp [pyReplaceL, replFuel_eq_replCore p ps new s.length s (Nat.le_refl _)]

example : parse_github_url "https://github.com/Babar-RM/agentify.git" =
    .ok ("Babar-RM", "agentify", "") := by rfl

example : parse_github_url "https://github.com/a/b/tree/main/src/deep" =
    .ok ("a", "b", "src/deep") := by rfl

example : parse_github_url "https://github.com/a/b/" = .ok ("a", "b", "") := by rfl

example : parse_github_url "https://example.com/a/b" =
    .error "Invalid GitHub URL format" := by rfl

example : parse_github_url "https://github.com/owner/my.github.io" =
    .ok ("owner", "myhub.io", "") := by rfl

example : extract_problem_number "1-two-sum.py" "solutions/1-two-sum.py" = "1" := by rfl

example : extract_problem_number "a12345b.py" "a12345b.py" = "1234" := by rfl

example : extract_problem_number "solution.py" "problem_0042/solution.py" = "0042" := by rfl

example : extract_problem_number "abc.py" "src/abc.py" = "Unknown" := by rfl

theorem chunks3_ne_nil {α : Type} (a : α) (l : List α) : chunks3 (a :: l) ≠ [] := by
  match l with
  | [] => simp [chunks3]
  | [b] => simp [chunks3]
  | b :: c :: rest => simp [chunks3]

/-- The loop of `analyze_with_gemini` processes exactly the batch partition:
its records are the concatenation of the per-batch results and its action
trace is one call per batch with a 2-unit sleep strictly between batches. -/
theorem analyze_components (api : String → Except String String)
    (decode : String → Option (List AnalysisDict)) :
    ∀ ps : List SourceFile,
      analyze_with_gemini api decode ps =
        (joinL ((chunks3 ps).map (processBatch api decode)), eventTrace (chunks3 ps))
  | [] => by simp [analyze_with_gemini, chunks3, joinL, eventTrace]
  | [p] => by simp [analyze_with_gemini, chunks3, joinL, eventTrace]
  | [p, q] => by simp [analyze_with_gemini, chunks3, joinL, eventTrace]
  | p :: q :: r :: rest => by
    have ih := analyze_components api decode rest
    match rest with
    | [] => simp [analyze_with_gemini, chunks3, joinL, eventTrace]
    | x :: xs =>
      obtain ⟨C, M, hCM⟩ : ∃ C M, chunks3 (x :: xs) = C :: M := by
        match hxs : chunks3 (x :: xs) with
        | [] => exact absurd hxs (chunks3_ne_nil x xs)
        | C :: M => exact ⟨C, M, rfl⟩
      show (processBatch api decode [p, q, r] ++ (analyze_with_gemini api decode (x :: xs)).1,
        GeminiEvent.call (create_gemini_prompt [p, q, r]) ::
          ((if (x :: xs).isEmpty then [] else [GeminiEvent.sleep 2]) ++
            (analyze_with_gemini api decode (x :: xs)).2)) = _
      rw [ih]
      show (processBatch api decode [p, q, r] ++ joinL ((chunks3 (x :: xs)).map _),
        GeminiEvent.call (create_gemini_prompt [p, q, r]) ::
          ((if (x :: xs).isEmpty then [] else [GeminiEvent.sleep 2]) ++
            eventTrace (chunks3 (x :: xs)))) = _
      rw [show chunks3 (p :: q :: r :: x :: xs) = [p, q, r] :: chunks3 (x :: xs) from rfl]
      rw [hCM]
      simp [joinL, eventTrace]

theorem joinL_chunks3 {α : Type} : ∀ l : List α, joinL (chunks3 l) = l
  | [] => by simp [chunks3, joinL]
  | [a] => by simp [chunks3, joinL]
  | [a, b] => by simp [chunks3, joinL]
  | a :: b :: c :: rest => by
    have ih := joinL_chunks3 rest
    simp [chunks3, joinL, ih]

theorem chunks3_length {α : Type} : ∀ l : List α, (chunks3 l).length = (l.length + 2) / 3
  | [] => by simp [chunks3]
  | [a] => by simp [chunks3]
  | [a, b] => by simp [chunks3]
  | a :: b :: c :: rest => by
    have ih := chunks3_length rest
    simp only [chunks3, List.length_cons, ih]
    omega

theorem chunks3_full_batches {α : Type} :
    ∀ l : List α, ∀ b ∈ (chunks3 l).dropLast, b.length = 3
  | [] => by simp [chunks3]
  | [a] => by simp [chunks3]
  | [a, b] => by simp [chunks3]
  | a :: b :: c :: rest => by
    intro bb hbb
    have ih := chunks3_full_batches rest
    match hxs : chunks3 rest with
    | [] =>
      rw [show chunks3 (a :: b :: c :: rest) = [a, b, c] :: chunks3 rest from rfl, hxs] at hbb
      simp at hbb
    | C :: M =>
      rw [show chunks3 (a :: b :: c :: rest) = [a, b, c] :: chunks3 rest from rfl, hxs] at hbb
      rw [List.dropLast_cons_of_ne_nil (by simp)] at hbb
      rcases List.mem_cons.mp hbb with h | h
      · subst h; rfl
      · exact ih bb (by rw [hxs]; exact h)

theorem chunks3_batch_size {α : Type} :
    ∀ l : List α, ∀ b ∈ chunks3 l, 1 ≤ b.length ∧ b.length ≤ 3
  | [] => by simp [chunks3]
  | [a] => by intro b hb; simp [chunks3] at hb; subst hb; simp
  | [a, b] => by intro bb hbb; simp [chunks3] at hbb; subst hbb; simp
  | a :: b :: c :: rest => by
    intro bb hbb
    rw [show chunks3 (a :: b :: c :: rest) = [a, b, c] :: chunks3 rest from rfl] at hbb
    rcases List.mem_cons.mp hbb with h | h
    · subst h; simp
    · exact chunks3_batch_size rest bb h

theorem str_data_append (a b : String) : (a ++ b).data = a.data ++ b.data := rfl

theorem promptSection_data (i : Nat) (p : SourceFile) :
    (promptSection i p).data =
      "\n--- Solution ".data ++ (toString i).data ++ " ---\n".data ++ "File: ".data ++
      p.filename.data ++ "\n".data ++ "Language: ".data ++ p.language.data ++ "\n".data ++
      "Code:\n".data ++ (pyTake 1200 p.code).data ++ "\n".data := by
  simp only [promptSection, str_data_append, List.append_assoc]

/-- Each per-file prompt fragment embeds the file's name, language and the
first 1200 characters of its code. -/
theorem promptSection_embeds (i : Nat) (p : SourceFile) :
    List.IsInfix p.filename.data (promptSection i p).data ∧
    List.IsInfix p.language.data (promptSection i p).data ∧
    List.IsInfix (pyTake 1200 p.code).data (promptSection i p).data := by
  have hd := promptSection_data i p
  refine ⟨⟨"\n--- Solution ".data ++ (toString i).data ++ " ---\n".data ++ "File: ".data,
      "\n".data ++ "Language: ".data ++ p.language.data ++ "\n".data ++
        "Code:\n".data ++ (pyTake 1200 p.code).data ++ "\n".data, ?_⟩,
    ⟨"\n--- Solution ".data ++ (toString i).data ++ " ---\n".data ++ "File: ".data ++
        p.filename.data ++ "\n".data ++ "Language: ".data,
      "\n".data ++ "Code:\n".data ++ (pyTake 1200 p.code).data ++ "\n".data, ?_⟩,
    ⟨"\n--- Solution ".data ++ (toString i).data ++ " ---\n".data ++ "File: ".data ++
        p.filename.data ++ "\n".data ++ "Language: ".data ++ p.language.data ++ "\n".data ++
        "Code:\n".data,
      "\n".data, ?_⟩⟩ <;>
    (rw [hd]; try simp only [List.append_assoc])

theorem promptSections_embeds :
    ∀ (k : Nat) (l : List SourceFile) (p : SourceFile), p ∈ l →
      ∃ i, List.IsInfix (promptSection i p).data (promptSections k l).data
  | _, [], p => by simp
  | k, q :: qs, p => by
    intro hp
    rcases List.mem_cons.mp hp with h | h
    · subst h
      refine ⟨k, ?_⟩
      rw [show promptSections k (p :: qs) = promptSection k p ++ promptSections (k + 1) qs
        from rfl, str_data_append]
      exact (List.prefix_append _ _).isInfix
    · obtain ⟨i, hi⟩ := promptSections_embeds (k + 1) qs p h
      refine ⟨i, hi.trans ?_⟩
      rw [show promptSections k (q :: qs) = promptSection k q ++ promptSections (k + 1) qs
        from rfl, str_data_append]
      exact (List.suffix_append _ _).isInfix

/-- The prompt built for a batch embeds, for every file of the batch, the
file's name, its language and the first 1200 characters of its code. -/
theorem prompt_embeds (b : List SourceFile) (p : SourceFile) (hp : p ∈ b) :
    List.IsInfix p.filename.data (create_gemini_prompt b).data ∧
    List.IsInfix p.language.data (create_gemini_prompt b).data ∧
    List.IsInfix (pyTake 1200 p.code).data (create_gemini_prompt b).data := by
  obtain ⟨i, hi⟩ := promptSections_embeds 1 b p hp
  have h3 := promptSection_embeds i p
  have hup : List.IsInfix (promptSections 1 b).data (create_gemini_prompt b).data := by
    rw [show create_gemini_prompt b = geminiHeader ++ promptSections 1 b from rfl,
      str_data_append]
    exact (List.suffix_append _ _).isInfix
  exact ⟨(h3.1.trans hi).trans hup, (h3.2.1.trans hi).trans hup, (h3.2.2.trans hi).trans hup⟩

/-- C9: `analyze_with_gemini` partitions its input, in order, into
`ceil(n/3)` batches of size 3 (the last possibly smaller), issues exactly one
generation call per batch — whose prompt embeds each file's name, language
and at most the first 1200 characters of its code — and sleeps the fixed
2-unit cooldown exactly between consecutive batches, never after the final
one (this is what `eventTrace` states: one `call` per batch, a `sleep 2`
strictly interleaved). -/
theorem analyze_batching_and_cooldown (api : String → Except String String)
    (decode : String → Option (List AnalysisDict)) (ps : List SourceFile) :
    joinL (chunks3 ps) = ps ∧
    (chunks3 ps).length = (ps.length + 2) / 3 ∧
    (∀ b, b ∈ (chunks3 ps).dropLast → b.length = 3) ∧
    (∀ b, b ∈ chunks3 ps → 1 ≤ b.length ∧ b.length ≤ 3) ∧
    (analyze_with_gemini api decode ps).2 = eventTrace (chunks3 ps) ∧
    (∀ b p, b ∈ chunks3 ps → p ∈ b →
      List.IsInfix p.filename.data (create_gemini_prompt b).data ∧
      List.IsInfix p.language.data (create_gemini_prompt b).data ∧
      List.IsInfix (pyTake 1200 p.code).data (create_gemini_prompt b).data) := by
  refine ⟨joinL_chunks3 ps, chunks3_length ps, chunks3_full_batches ps,
    chunks3_batch_size ps, ?_, ?_⟩
  · rw [analyze_components]
  · intro b p _ hp
    exact prompt_embeds b p hp

/-- C3: per-batch failure policy of `analyze_with_gemini`
(gemini_integration.py:206-246). The run processes every batch of the
partition and concatenates the per-batch outcomes — a batch never aborts the
later batches or the run. A batch whose generation call raises (including a
timeout) maps every one of its files to the `failedRec` default; a batch
whose call returns but whose reply does not parse into a non-empty JSON
array maps every one of its files to the `pendingRec` default; both defaults
carry difficulty, time and space complexity "Unknown" and empty algorithm,
data-structure and tag lists, with explanation "Analysis failed" vs
"Analysis pending" respectively. -/
theorem gemini_failure_policy (api : String → Except String String)
    (decode : String → Option (List AnalysisDict)) (ps : List SourceFile) :
    (analyze_with_gemini api decode ps).1 =
      joinL ((chunks3 ps).map (fun batch =>
        match api (create_gemini_prompt batch) with
        | Except.error _ => batch.map failedRec
        | Except.ok response =>
          match parse_gemini_response decode response batch with
          | [] => batch.map pendingRec
          | analyzed => analyzed)) ∧
    (∀ p : SourceFile,
      (failedRec p).difficulty = some "Unknown" ∧
      (failedRec p).time_complexity = some "Unknown" ∧
      (failedRec p).space_complexity = some "Unknown" ∧
      (failedRec p).algorithms = some [] ∧
      (failedRec p).data_structures = some [] ∧
      (failedRec p).tags = some [] ∧
      (failedRec p).explanation = some "Analysis failed" ∧
      (pendingRec p).difficulty = some "Unknown" ∧
      (pendingRec p).time_complexity = some "Unknown" ∧
      (pendingRec p).space_complexity = some "Unknown" ∧
      (pendingRec p).algorithms = some [] ∧
      (pendingRec p).data_structures = some [] ∧
      (pendingRec p).tags = some [] ∧
      (pendingRec p).explanation = some "Analysis pending") := by
  constructor
  · rw [analyze_components]
    exact rfl
  · intro p
    refine ⟨rfl, rfl, rfl, rfl, rfl, rfl, rfl, rfl, rfl, rfl, rfl, rfl, rfl, rfl⟩

theorem mergeEntries_length : ∀ (es : List AnalysisDict) (b : List SourceFile),
    (mergeEntries es b).length = es.length
  | [], _ => rfl
  | _ :: es, [] => by simp [mergeEntries, mergeEntries_length es []]
  | _ :: es, _ :: ps => by simp [mergeEntries, mergeEntries_length es ps]

/-- When the decoded array has exactly the batch's length, the merged result
carries, position by position, the batch's paths and codes. -/
theorem mergeEntries_aligned : ∀ (es : List AnalysisDict) (b : List SourceFile),
    es.length = b.length →
    (mergeEntries es b).map (fun a => a.path) = b.map (fun p => some p.path) ∧
    (mergeEntries es b).map (fun a => a.code) = b.map (fun p => some p.code)
  | [], [] => by intro; simp [mergeEntries]
  | [], _ :: _ => by intro h; simp at h
  | _ :: _, [] => by intro h; simp at h
  | e :: es, p :: ps => by
    intro h
    have ih := mergeEntries_aligned es ps (by simpa using h)
    simp only [mergeEntries, List.map_cons]
    exact ⟨by rw [ih.1], by rw [ih.2]⟩

/-- A non-empty `parse_gemini_response` result is always a merge of some
decoded entry list with the original batch. -/
theorem parse_response_shape (decode : String → Option (List AnalysisDict))
    (r : String) (b : List SourceFile) :
    parse_gemini_response decode r b = [] ∨
    ∃ es, parse_gemini_response decode r b = mergeEntries es b := by
  unfold parse_gemini_response
  cases hf : findCharIdx '[' (pyStrip (pyReplace "```" "" (pyReplace "```json" "" r))).data with
  | none => simp [hf]
  | some start =>
    cases hl : rfindCharIdx ']' (pyStrip (pyReplace "```" "" (pyReplace "```json" "" r))).data with
    | none => simp [hf, hl]
    | some last =>
      simp only [hf, hl]
      cases hd : decode _ with
      | none => simp
      | some es => exact Or.inr ⟨es, rfl⟩

/-- Every branch of one batch iteration aligns paths and codes with the batch
as soon as a successfully decoded non-empty reply has the batch's length. -/
theorem processBatch_aligned (api : String → Except String String)
    (decode : String → Option (List AnalysisDict)) (b : List SourceFile)
    (Hb : ∀ r, api (create_gemini_prompt b) = Except.ok r →
      parse_gemini_response decode r b = [] ∨
      (parse_gemini_response decode r b).length = b.length) :
    (processBatch api decode b).map (fun a => a.path) = b.map (fun p => some p.path) ∧
    (processBatch api decode b).map (fun a => a.code) = b.map (fun p => some p.code) := by
  unfold processBatch
  cases ha : api (create_gemini_prompt b) with
  | error e =>
    constructor <;> (simp only [List.map_map]; rfl)
  | ok r =>
    simp only
    cases hp : parse_gemini_response decode r b with
    | nil =>
      simp only [hp]
      constructor <;> (simp only [List.map_map]; rfl)
    | cons x xs =>
      simp only [hp]
      have hlen : (parse_gemini_response decode r b).length = b.length := by
        rcases Hb r ha with h | h
        · rw [hp] at h; exact absurd h (by simp)
        · exact h
      rcases parse_response_shape decode r b with h | ⟨es, hes⟩
      · rw [hp] at h; exact absurd h (by simp)
      · have heslen : es.length = b.length := by
          rw [hes, mergeEntries_length] at hlen; exact hlen
        have halign := mergeEntries_aligned es b heslen
        rw [← hes, hp] at halign
        exact halign

/-- C1 amended: the batch annotate step is length- and path-preserving
whenever every batch's successfully decoded non-empty reply has exactly the
batch's length (in particular always when batches fall back to the default
records); without that hypothesis the alignment fails — see the
C1 counterexample, where a decoded array shorter than the batch makes the
output shorter than the input. -/
theorem annotate_alignment_amended (api : String → Except String String)
    (decode : String → Option (List AnalysisDict)) :
    ∀ ps : List SourceFile,
    (∀ b, b ∈ chunks3 ps → ∀ r, api (create_gemini_prompt b) = Except.ok r →
      parse_gemini_response decode r b = [] ∨
      (parse_gemini_response decode r b).length = b.length) →
    ((analyze_with_gemini api decode ps).1).map (fun a => a.path) =
        ps.map (fun p => some p.path) ∧
    ((analyze_with_gemini api decode ps).1).map (fun a => a.code) =
        ps.map (fun p => some p.code) ∧
    ((analyze_with_gemini api decode ps).1).length = ps.length
  | [] => by intro; simp [analyze_with_gemini]
  | [p] => by
    intro H
    have hb := processBatch_aligned api decode [p] (H [p] (by simp [chunks3]))
    refine ⟨hb.1, hb.2, ?_⟩
    have := congrArg List.length hb.1
    simpa using this
  | [p, q] => by
    intro H
    have hb := processBatch_aligned api decode [p, q] (H [p, q] (by simp [chunks3]))
    refine ⟨hb.1, hb.2, ?_⟩
    have := congrArg List.length hb.1
    simpa using this
  | p :: q :: r :: rest => by
    intro H
    have hb := processBatch_aligned api decode [p, q, r]
      (H [p, q, r] (by exact List.mem_cons_self _ _))
    have ih := annotate_alignment_amended api decode rest (fun b hbmem => H b
      (by exact List.mem_cons_of_mem _ hbmem))
    have hfst : (analyze_with_gemini api decode (p :: q :: r :: rest)).1 =
        processBatch api decode [p, q, r] ++ (analyze_with_gemini api decode rest).1 := rfl
    refine ⟨?_, ?_, ?_⟩
    · rw [hfst]; simp only [List.map_append, List.map_cons]
      rw [ih.1]
      have h1 := hb.1
      simp only [List.map_cons, List.map_nil] at h1
      rw [h1]
      simp
    · rw [hfst]; simp only [List.map_append, List.map_cons]
      rw [ih.2.1]
      have h1 := hb.2
      simp only [List.map_cons, List.map_nil] at h1
      rw [h1]
      simp
    · rw [hfst]
      simp only [List.length_append, List.length_cons]
      have hblen : (processBatch api decode [p, q, r]).length = 3 := by
        have := congrArg List.length hb.1
        simpa using this
      rw [hblen, ih.2.2]
      omega

/-- C1 counterexample: with two input files and a generation reply `[{}]` — a
valid JSON array whose decoded length (1) differs from the batch's length
(2) — `analyze_with_gemini`/`parse_gemini_response` return one record for the
two inputs: the output length does not equal the input length, refuting the
claimed alignment invariant for length-mismatched decoded arrays (the merge
loop `for i, analysis in enumerate(analyzed): if i < len(original_problems)`
guards the index but does not pad missing entries). -/
theorem annotate_alignment_counterexample :
    ((analyze_with_gemini c1api c1decode [c1fileA, c1fileB]).1).length = 1 ∧
    ([c1fileA, c1fileB] : List SourceFile).length = 2 ∧ (1 : Nat) ≠ 2 := by
  refine ⟨?_, rfl, by decide⟩
  rfl

theorem annotate_alignment_amended_witness :
    ((analyze_with_gemini c1wapi c1wdecode [c1fileA]).1).map (fun a => a.path) =
      [some c1fileA.path] ∧
    ((analyze_with_gemini c1wapi c1wdecode [c1fileA]).1).length = 1 := by
  have h := annotate_alignment_amended c1wapi c1wdecode [c1fileA]
    (fun b _ r hr => absurd hr (by simp [c1wapi]))
  exact ⟨h.1, h.2.2⟩

theorem analyze_batching_and_cooldown_witness :
    [c9file1, c9file2, c9file3] ∈ (chunks3 [c9file1, c9file2, c9file3, c9file4]).dropLast ∧
    c9file1 ∈ ([c9file1, c9file2, c9file3] : List SourceFile) ∧
    ([c9file1, c9file2, c9file3] : List SourceFile).length = 3 ∧
    List.IsInfix c9file1.filename.data
      (create_gemini_prompt [c9file1, c9file2, c9file3]).data := by
  have h := analyze_batching_and_cooldown (fun _ => Except.error "e") (fun _ => none)
    [c9file1, c9file2, c9file3, c9file4]
  have hd : [c9file1, c9file2, c9file3] ∈
      (chunks3 [c9file1, c9file2, c9file3, c9file4]).dropLast := by
    rw [show chunks3 [c9file1, c9file2, c9file3, c9file4] =
      [[c9file1, c9file2, c9file3], [c9file4]] from rfl]
    simp
  have hc : [c9file1, c9file2, c9file3] ∈ chunks3 [c9file1, c9file2, c9file3, c9file4] := by
    rw [show chunks3 [c9file1, c9file2, c9file3, c9file4] =
      [[c9file1, c9file2, c9file3], [c9file4]] from rfl]
    simp
  have hp : c9file1 ∈ ([c9file1, c9file2, c9file3] : List SourceFile) :=
    List.mem_cons_self _ _
  exact ⟨hd, hp, h.2.2.1 _ hd, (h.2.2.2.2.2 _ _ hc hp).1⟩

/-- C7: no SourceFile yielded by the crawl has a path containing `test` or
`helper` in any letter case — the scan checks the lowercased path of every
file entry before fetching, and `continue`s on a hit, even when the entry has
a recognized source-code extension (gemini_integration.py:139-141). -/
theorem scan_excludes_test_helper (fetch : String → String) :
    ∀ t : GTree,
      (scan_repository fetch t).all
        (fun p => !(containsSub (lowerStr p.path) "test") &&
                  !(containsSub (lowerStr p.path) "helper")) = true
  | GTree.nilE => rfl
  | GTree.fileE m rest => by
    have ih := scan_excludes_test_helper fetch rest
    rw [show scan_repository fetch (GTree.fileE m rest) =
      scanFileItem fetch m ++ scan_repository fetch rest from rfl]
    rw [List.all_append, ih, Bool.and_true]
    unfold scanFileItem
    by_cases h1 : is_code_file m.name = true
    · rw [if_pos h1]
      cases hc : containsSub (lowerStr m.path) "test" with
      | true => simp [hc]
      | false =>
        cases hh : containsSub (lowerStr m.path) "helper" with
        | true => simp [hc, hh]
        | false =>
          simp only [hc, hh, Bool.or_self, Bool.false_or, if_false]
          by_cases hcode : (fetch m.download_url == "") = true
          · simp [hcode]
          · simp only [hcode, if_false, Bool.not_eq_true] at *
            simp [mkSourceFile, hc, hh, hcode]
    · rw [if_neg h1]
      rfl
  | GTree.dirE m cs rest => by
    have ih1 := scan_excludes_test_helper fetch cs
    have ih2 := scan_excludes_test_helper fetch rest
    rw [show scan_repository fetch (GTree.dirE m cs rest) =
      scan_repository fetch cs ++ scan_repository fetch rest from rfl]
    rw [List.all_append, ih1, ih2]
    rfl

theorem scan_code_nonempty (fetch : String → String) :
    ∀ t : GTree,
      (scan_repository fetch t).all (fun p => !(p.code == "")) = true
  | GTree.nilE => rfl
  | GTree.fileE m rest => by
    have ih := scan_code_nonempty fetch rest
    rw [show scan_repository fetch (GTree.fileE m rest) =
      scanFileItem fetch m ++ scan_repository fetch rest from rfl]
    rw [List.all_append, ih, Bool.and_true]
    unfold scanFileItem
    by_cases h1 : is_code_file m.name = true
    · rw [if_pos h1]
      cases hc : (containsSub (lowerStr m.path) "test" ||
          containsSub (lowerStr m.path) "helper") with
      | true => simp [hc]
      | false =>
        simp only [hc, if_false]
        by_cases hcode : (fetch m.download_url == "") = true
        · simp [hcode]
        · simp [mkSourceFile, hcode]
    · rw [if_neg h1]
      rfl
  | GTree.dirE m cs rest => by
    have ih1 := scan_code_nonempty fetch cs
    have ih2 := scan_code_nonempty fetch rest
    rw [show scan_repository fetch (GTree.dirE m cs rest) =
      scan_repository fetch cs ++ scan_repository fetch rest from rfl]
    rw [List.all_append, ih1, ih2]
    rfl

/-- C10: every SourceFile yielded by the crawl has non-empty code — a matched
file entry whose download fails or returns an empty string is skipped by
`if code:` (gemini_integration.py:144-145) — and the yield count can be
strictly smaller than the matched-entry count: in the concrete scenario two
`.py` entries match but only one is yielded because the other's download
returns `""`. -/
theorem scan_yields_nonempty_code (fetch : String → String) (t : GTree) :
    (scan_repository fetch t).all (fun p => !(p.code == "")) = true ∧
    (matchedFiles c10tree).length = 2 ∧
    (scan_repository c10fetch c10tree).length = 1 := by
  exact ⟨scan_code_nonempty fetch t, rfl, rfl⟩

theorem reSearch_eq_tails_findSome {α : Type} (m : List Char → Option α) :
    ∀ s : List Char, reSearch m s = s.tails.findSome? m
  | [] => by
    cases hm : m [] <;> simp [reSearch, List.tails, List.findSome?, hm]
  | c :: cs => by
    have ih := reSearch_eq_tails_findSome m cs
    rw [List.tails_cons, List.findSome?_cons]
    simp only [reSearch]
    cases m (c :: cs) with
    | some r => rfl
    | none => exact ih

theorem reSearch_digit_eq_spec : ∀ s : List Char,
    reSearch digitMatchAt s = specFirstDigits s
  | [] => rfl
  | c :: cs => by
    have ih := reSearch_digit_eq_spec cs
    by_cases hc : c.isDigit = true
    · simp [reSearch, digitMatchAt, specFirstDigits, List.dropWhile_cons, hc]
    · have hc2 : c.isDigit = false := by revert hc; cases c.isDigit <;> simp
      simp [reSearch, digitMatchAt, specFirstDigits, List.dropWhile_cons, hc2, ih]

theorem takeWhile_mem {p : Char → Bool} :
    ∀ l : List Char, ∀ x, x ∈ l.takeWhile p → p x = true := by
  intro l
  induction l with
  | nil => intro x hx; simp at hx
  | cons c cs ih =>
    intro x hx
    rw [List.takeWhile_cons] at hx
    by_cases hc : p c = true
    · rw [if_pos hc] at hx
      rcases List.mem_cons.mp hx with h | h
      · subst h; exact hc
      · exact ih x h
    · rw [if_neg hc] at hx
      simp at hx

theorem dropWhile_head_not {p : Char → Bool} :
    ∀ (s : List Char) (c : Char) (cs : List Char), s.dropWhile p = c :: cs → p c = false := by
  intro s
  induction s with
  | nil => intro c cs h; simp at h
  | cons x xs ih =>
    intro c cs h
    rw [List.dropWhile_cons] at h
    by_cases hx : p x = true
    · rw [if_pos hx] at h; exact ih c cs h
    · rw [if_neg hx] at h
      injection h with h1 _
      subst h1
      revert hx
      cases p x <;> simp

theorem specFirstDigits_digits (s : List Char) (d : String)
    (h : specFirstDigits s = some d) :
    d.data ≠ [] ∧ d.data.length ≤ 4 ∧ d.data.all Char.isDigit = true := by
  unfold specFirstDigits at h
  cases hdw : s.dropWhile (fun c => !c.isDigit) with
  | nil => rw [hdw] at h; exact absurd h (by simp)
  | cons c cs =>
    rw [hdw] at h
    have hcd : c.isDigit = true := by
      have := dropWhile_head_not s c cs hdw
      revert this
      cases c.isDigit <;> simp
    have hd : d.data = ((c :: cs).takeWhile Char.isDigit).take 4 := by
      have := Option.some.inj h
      rw [← this]
    constructor
    · rw [hd, List.takeWhile_cons, if_pos hcd]
      simp
    constructor
    · rw [hd]
      simp [List.length_take]
    · rw [hd]
      rw [List.all_eq_true]
      intro x hx
      exact takeWhile_mem _ x (List.take_subset _ _ hx)

theorem problemPatAt_digits (t : List Char) (d : String)
    (h : problemPatAt t = some d) :
    d.data.length = 4 ∧ d.data.all Char.isDigit = true := by
  unfold problemPatAt at h
  cases hdl : dropLit "problem".data t with
  | none => rw [hdl] at h; exact absurd h (by simp)
  | some r =>
    rw [hdl] at h
    dsimp only at h
    by_cases hg : (((sepSkip r).take 4).length == 4 &&
        ((sepSkip r).take 4).all Char.isDigit) = true
    · rw [if_pos hg] at h
      have hd : d.data = (sepSkip r).take 4 := by
        have := Option.some.inj h
        rw [← this]
      rw [Bool.and_eq_true] at hg
      rcases hg with ⟨h1, h2⟩
      exact ⟨by rw [hd]; simpa using h1, by rw [hd]; exact h2⟩
    · rw [if_neg hg] at h
      exact absurd h (by simp)

theorem specProblemPat_digits (sp : List Char) (d : String)
    (h : specProblemPat sp = some d) :
    d.data.length = 4 ∧ d.data.all Char.isDigit = true := by
  unfold specProblemPat at h
  obtain ⟨t, _, ht⟩ := List.exists_of_findSome?_eq_some h
  exact problemPatAt_digits t d ht

/-- C8: `extract_problem_number` agrees with the claim-side description
`spec_extract` — the first run of 1–4 digits of the filename (the leftmost
digit run, capped at four characters by the greedy `\d{1,4}`); if the
filename has no digit, the four digits matched by `problem[-_]?####` in the
full path; otherwise "Unknown" — and a non-"Unknown" result is always a
non-empty digit string of at most four characters. -/
theorem extract_problem_number_correct :
    (∀ f p : String, extract_problem_number f p = spec_extract f p) ∧
    (∀ f p : String, extract_problem_number f p ≠ "Unknown" →
      (extract_problem_number f p).data ≠ [] ∧
      (extract_problem_number f p).data.length ≤ 4 ∧
      (extract_problem_number f p).data.all Char.isDigit = true) ∧
    extract_problem_number "1-two-sum.py" "solutions/1-two-sum.py" = "1" ∧
    extract_problem_number "a12345b.py" "a12345b.py" = "1234" ∧
    extract_problem_number "solution.py" "problem_0042/solution.py" = "0042" ∧
    extract_problem_number "abc.py" "src/abc.py" = "Unknown" := by
  have heq : ∀ f p : String, extract_problem_number f p = spec_extract f p := by
    intro f p
    unfold extract_problem_number spec_extract specProblemPat
    rw [reSearch_digit_eq_spec, reSearch_eq_tails_findSome]
  refine ⟨heq, ?_, rfl, rfl, rfl, rfl⟩
  intro f p hne
  rw [heq] at hne ⊢
  unfold spec_extract at hne ⊢
  cases hfd : specFirstDigits f.data with
  | some d =>
    show d.data ≠ [] ∧ d.data.length ≤ 4 ∧ d.data.all Char.isDigit = true
    exact specFirstDigits_digits f.data d hfd
  | none =>
    rw [hfd] at hne
    cases hpp : specProblemPat p.data with
    | some d =>
      show d.data ≠ [] ∧ d.data.length ≤ 4 ∧ d.data.all Char.isDigit = true
      have h4 := specProblemPat_digits p.data d hpp
      refine ⟨?_, by omega, h4.2⟩
      intro hnil
      rw [hnil] at h4
      simp at h4
    | none =>
      rw [hpp] at hne
      exact absurd rfl hne

theorem extract_problem_number_correct_witness :
    extract_problem_number "1.py" "x.py" ≠ "Unknown" ∧
    (extract_problem_number "1.py" "x.py").data.length ≤ 4 := by
  have h := extract_problem_number_correct.2.1 "1.py" "x.py" (by decide)
  exact ⟨by decide, h.2.1⟩

theorem dropLit_self_append : ∀ lit s : List Char, dropLit lit (lit ++ s) = some s
  | [], s => rfl
  | c :: cs, s => by
    rw [List.cons_append]
    rw [show dropLit (c :: cs) (c :: (cs ++ s)) =
      (if c == c then dropLit cs (cs ++ s) else none) from rfl]
    rw [if_pos (by simp)]
    exact dropLit_self_append cs s

theorem dropLit_inv : ∀ lit s r : List Char, dropLit lit s = some r → s = lit ++ r
  | [], s, r => by intro h; simp [dropLit] at h; rw [h]; rfl
  | c :: cs, [], r => by intro h; simp [dropLit] at h
  | c :: cs, x :: xs, r => by
    intro h
    rw [show dropLit (c :: cs) (x :: xs) =
      (if c == x then dropLit cs xs else none) from rfl] at h
    by_cases hc : (c == x) = true
    · rw [if_pos hc] at h
      have := dropLit_inv cs xs r h
      rw [List.cons_append]
      rw [← this]
      have : c = x := by simpa using hc
      rw [this]
    · rw [if_neg hc] at h
      exact absurd h (by simp)

theorem takeWhile_all {q : Char → Bool} :
    ∀ l : List Char, (∀ x ∈ l, q x = true) → l.takeWhile q = l := by
  intro l
  induction l with
  | nil => intro; rfl
  | cons c cs ih =>
    intro h
    rw [List.takeWhile_cons, if_pos (h c (List.mem_cons_self c cs))]
    rw [ih (fun x hx => h x (List.mem_cons_of_mem c hx))]

theorem takeWhile_stop {q : Char → Bool} :
    ∀ (a : List Char), (∀ x ∈ a, q x = true) → ∀ (c : Char), q c = false → ∀ t,
      (a ++ c :: t).takeWhile q = a ∧ (a ++ c :: t).dropWhile q = c :: t := by
  intro a
  induction a with
  | nil =>
    intro _ c hc t
    constructor
    · rw [List.nil_append, List.takeWhile_cons, if_neg (by simp [hc])]
    · rw [List.nil_append, List.dropWhile_cons, if_neg (by simp [hc])]
  | cons x xs ih =>
    intro ha c hc t
    have hx : q x = true := ha x (List.mem_cons_self x xs)
    have ihr := ih (fun y hy => ha y (List.mem_cons_of_mem x hy)) c hc t
    constructor
    · rw [List.cons_append, List.takeWhile_cons, if_pos hx, ihr.1]
    · rw [List.cons_append, List.dropWhile_cons, if_pos hx, ihr.2]

theorem reSearch_cons_none {α : Type} (m : List Char → Option α) (c : Char)
    (cs : List Char) (h : m (c :: cs) = none) : reSearch m (c :: cs) = reSearch m cs := by
  rw [show reSearch m (c :: cs) =
    (match m (c :: cs) with
     | some r => some r
     | none => reSearch m cs) from rfl, h]

theorem reSearch_cons_some {α : Type} (m : List Char → Option α) (c : Char)
    (cs : List Char) (r : α) (h : m (c :: cs) = some r) : reSearch m (c :: cs) = some r := by
  rw [show reSearch m (c :: cs) =
    (match m (c :: cs) with
     | some r => some r
     | none => reSearch m cs) from rfl, h]

theorem matchRegularAt_ne_g (c : Char) (rest : List Char) (h : ('g' == c) = false) :
    matchRegularAt (c :: rest) = none := by
  unfold matchRegularAt
  rw [show ghLit = 'g' :: "ithub.com/".data from rfl]
  rw [show dropLit ('g' :: "ithub.com/".data) (c :: rest) =
    (if 'g' == c then dropLit "ithub.com/".data rest else none) from rfl]
  rw [if_neg (by simp [h])]

theorem matchTreeAt_ne_g (c : Char) (rest : List Char) (h : ('g' == c) = false) :
    matchTreeAt (c :: rest) = none := by
  unfold matchTreeAt
  rw [show ghLit = 'g' :: "ithub.com/".data from rfl]
  rw [show dropLit ('g' :: "ithub.com/".data) (c :: rest) =
    (if 'g' == c then dropLit "ithub.com/".data rest else none) from rfl]
  rw [if_neg (by simp [h])]

/-- `re.search` skips the scheme prefix `https://`: none of its eight
characters is the `g` both URL regexes must start with. -/
theorem reSearch_skip_https {α : Type} (m : List Char → Option α)
    (hm : ∀ c rest, ('g' == c) = false → m (c :: rest) = none) (s : List Char) :
    reSearch m ("https://".data ++ s) = reSearch m s := by
  rw [show "https://".data ++ s =
    'h' :: 't' :: 't' :: 'p' :: 's' :: ':' :: '/' :: '/' :: s from rfl]
  rw [reSearch_cons_none m _ _ (hm _ _ (by decide))]
  rw [reSearch_cons_none m _ _ (hm _ _ (by decide))]
  rw [reSearch_cons_none m _ _ (hm _ _ (by decide))]
  rw [reSearch_cons_none m _ _ (hm _ _ (by decide))]
  rw [reSearch_cons_none m _ _ (hm _ _ (by decide))]
  rw [reSearch_cons_none m _ _ (hm _ _ (by decide))]
  rw [reSearch_cons_none m _ _ (hm _ _ (by decide))]
  rw [reSearch_cons_none m _ _ (hm _ _ (by decide))]

theorem rstrip_eq_self (s : List Char)
    (h : ∀ c cs, s.reverse = c :: cs → (c == '/') = false) :
    rstripSlashL s = s := by
  unfold rstripSlashL
  cases hr : s.reverse with
  | nil =>
    have hs : s = [] := by
      have := congrArg List.reverse hr
      simpa using this
    subst hs
    rfl
  | cons c cs =>
    rw [List.dropWhile_cons, if_neg (by simp [h c cs hr])]
    have := congrArg List.reverse hr
    simpa using this.symm

theorem rstrip_append_slash (s : List Char) :
    rstripSlashL (s ++ ['/']) = rstripSlashL s := by
  unfold rstripSlashL
  rw [List.reverse_append]
  rw [show ['/'].reverse ++ s.reverse = '/' :: s.reverse from rfl]
  rw [List.dropWhile_cons, if_pos (by simp)]

theorem isEmpty_false_of_ne_nil {l : List Char} (h : l ≠ []) : l.isEmpty = false := by
  cases l with
  | nil => exact absurd rfl h
  | cons c cs => rfl

/-- The plain regex matches right at a `github.com/owner/...` anchor. -/
theorem matchRegularAt_hit (o t : List Char) (ho : o ≠ [])
    (hos : ∀ x ∈ o, notSlash x = true) (ht : t.takeWhile notSlash ≠ []) :
    matchRegularAt (ghLit ++ (o ++ '/' :: t)) = some (⟨o⟩, ⟨t.takeWhile notSlash⟩) := by
  have hsp := takeWhile_stop o hos '/' (by simp [notSlash]) t
  unfold matchRegularAt
  rw [dropLit_self_append]
  simp only [hsp.1, hsp.2]
  rw [if_neg (by simp [isEmpty_false_of_ne_nil ho])]
  rw [if_neg (by simp [isEmpty_false_of_ne_nil ht])]

/-- The tree regex matches right at a
`github.com/owner/repo/tree/branch/path` anchor. -/
theorem matchTreeAt_hit (o r b p : List Char) (ho : o ≠ [])
    (hos : ∀ x ∈ o, notSlash x = true) (hr : r ≠ [])
    (hrs : ∀ x ∈ r, notSlash x = true) (hb : b ≠ [])
    (hbs : ∀ x ∈ b, notSlash x = true) (hp : p ≠ [])
    (hps : ∀ x ∈ p, notNL x = true) :
    matchTreeAt (ghLit ++ (o ++ '/' :: (r ++ ('/' :: ("tree/".data ++ (b ++ '/' :: p)))))) =
      some (⟨o⟩, ⟨r⟩, ⟨p⟩) := by
  have hspo := takeWhile_stop o hos '/' (by simp [notSlash])
    (r ++ ('/' :: ("tree/".data ++ (b ++ '/' :: p))))
  have hspr := takeWhile_stop r hrs '/' (by simp [notSlash]) ("tree/".data ++ (b ++ '/' :: p))
  have hspb := takeWhile_stop b hbs '/' (by simp [notSlash]) p
  unfold matchTreeAt
  rw [dropLit_self_append]
  simp only [hspo.1, hspo.2]
  rw [if_neg (by simp [isEmpty_false_of_ne_nil ho])]
  simp only [hspr.1, hspr.2]
  rw [if_neg (by simp [isEmpty_false_of_ne_nil hr])]
  rw [show ('/' :: ("tree/".data ++ (b ++ '/' :: p))) =
    "/tree/".data ++ (b ++ '/' :: p) from rfl]
  rw [dropLit_self_append]
  simp only [hspb.1, hspb.2]
  rw [if_neg (by simp [isEmpty_false_of_ne_nil hb])]
  rw [takeWhile_all p hps]
  rw [if_neg (by simp [isEmpty_false_of_ne_nil hp])]

theorem matchRegularAt_decomp (s : List Char) (x : String × String)
    (h : matchRegularAt s = some x) :
    ∃ g1 g2 post, s = ghLit ++ (g1 ++ '/' :: (g2 ++ post)) ∧ g1 ≠ [] ∧
      (∀ y ∈ g1, notSlash y = true) ∧ g2 ≠ [] ∧ (∀ y ∈ g2, notSlash y = true) := by
  unfold matchRegularAt at h
  split at h
  · exact absurd h (by simp)
  · rename_i r1 hdl
    split at h
    · exact absurd h (by simp)
    · rename_i hg1
      split at h
      · rename_i r3 heq
        split at h
        · exact absurd h (by simp)
        · rename_i hg2
          refine ⟨r1.takeWhile notSlash, r3.takeWhile notSlash, r3.dropWhile notSlash,
            ?_, ?_, ?_, ?_, ?_⟩
          · rw [dropLit_inv _ _ _ hdl]
            congr 1
            rw [List.takeWhile_append_dropWhile (p := notSlash) (l := r3)]
            rw [← heq]
            rw [List.takeWhile_append_dropWhile]
          · intro hnil; rw [hnil] at hg1; exact hg1 rfl
          · exact fun y hy => takeWhile_mem r1 y hy
          · intro hnil; rw [hnil] at hg2; exact hg2 rfl
          · exact fun y hy => takeWhile_mem r3 y hy
      · exact absurd h (by simp)

theorem matchTreeAt_decomp (s : List Char) (x : String × String × String)
    (h : matchTreeAt s = some x) :
    ∃ g1 g2 b2 r7,
      s = ghLit ++ (g1 ++ '/' :: (g2 ++ ("/tree/".data ++ (b2 ++ '/' :: r7)))) ∧
      g1 ≠ [] ∧ (∀ y ∈ g1, notSlash y = true) ∧ g2 ≠ [] ∧
      (∀ y ∈ g2, notSlash y = true) := by
  unfold matchTreeAt at h
  split at h
  · exact absurd h (by simp)
  · rename_i r1 hdl
    split at h
    · exact absurd h (by simp)
    · rename_i hg1
      split at h
      · rename_i r3 heq3
        split at h
        · exact absurd h (by simp)
        · rename_i hg2
          split at h
          · exact absurd h (by simp)
          · rename_i r5 hdl5
            split at h
            · exact absurd h (by simp)
            · split at h
              · rename_i r7 heq7
                refine ⟨r1.takeWhile notSlash, r3.takeWhile notSlash,
                  r5.takeWhile notSlash, r7, ?_,
                  fun hnil => by rw [hnil] at hg1; exact hg1 rfl,
                  fun y hy => takeWhile_mem r1 y hy,
                  fun hnil => by rw [hnil] at hg2; exact hg2 rfl,
                  fun y hy => takeWhile_mem r3 y hy⟩
                have e1 : r1 = r1.takeWhile notSlash ++ '/' :: r3 := by
                  conv_lhs => rw [← List.takeWhile_append_dropWhile (p := notSlash) (l := r1)]
                  rw [heq3]
                have e3 : r3 = r3.takeWhile notSlash ++ ("/tree/".data ++ r5) := by
                  conv_lhs => rw [← List.takeWhile_append_dropWhile (p := notSlash) (l := r3)]
                  rw [dropLit_inv _ _ _ hdl5]
                have e5 : r5 = r5.takeWhile notSlash ++ '/' :: r7 := by
                  conv_lhs => rw [← List.takeWhile_append_dropWhile (p := notSlash) (l := r5)]
                  rw [heq7]
                rw [← e5, ← e3, ← e1]
                exact dropLit_inv _ _ _ hdl
              · exact absurd h (by simp)
      · exact absurd h (by simp)

/-- A successful tree-regex match consumes at least five slashes
(`github.com/`, the owner/repo separator, both slashes of `/tree/`, and the
branch/path separator). -/
theorem matchTreeAt_five_slashes (s : List Char) (x : String × String × String)
    (h : matchTreeAt s = some x) : 5 ≤ countSlash s := by
  obtain ⟨g1, g2, b2, r7, hs, _, _, _, _⟩ := matchTreeAt_decomp s x h
  rw [hs]
  unfold countSlash
  simp only [List.countP_append, List.countP_cons]
  have hg : List.countP (fun c => c == '/') ghLit = 1 := by decide
  rw [hg]
  simp
  omega

theorem reSearch_some_suffix {α : Type} (m : List Char → Option α) :
    ∀ (s : List Char) (x : α), reSearch m s = some x →
      ∃ pre t, s = pre ++ t ∧ m t = some x
  | [], x => by
    intro h
    exact ⟨[], [], rfl, h⟩
  | c :: cs, x => by
    intro h
    rw [show reSearch m (c :: cs) =
      (match m (c :: cs) with
       | some r => some r
       | none => reSearch m cs) from rfl] at h
    cases hm : m (c :: cs) with
    | some r =>
      rw [hm] at h
      exact ⟨[], c :: cs, rfl, by rw [hm, ← h]⟩
    | none =>
      rw [hm] at h
      obtain ⟨pre, t, hst, hmt⟩ := reSearch_some_suffix m cs x h
      exact ⟨c :: pre, t, by rw [List.cons_append, ← hst], hmt⟩

theorem countSlash_suffix_le (pre t : List Char) :
    countSlash t ≤ countSlash (pre ++ t) := by
  unfold countSlash
  rw [List.countP_append]
  omega

/-- An anchored owner/repo decomposition makes the plain matcher succeed. -/
theorem matchRegularAt_of_decomp (g1 g2 post : List Char) (h1 : g1 ≠ [])
    (h1s : ∀ y ∈ g1, notSlash y = true) (h2 : g2 ≠ [])
    (h2s : ∀ y ∈ g2, notSlash y = true) :
    ∃ r, matchRegularAt (ghLit ++ (g1 ++ '/' :: (g2 ++ post))) = some r := by
  refine ⟨(⟨g1⟩, ⟨(g2 ++ post).takeWhile notSlash⟩), ?_⟩
  apply matchRegularAt_hit g1 (g2 ++ post) h1 h1s
  cases g2 with
  | nil => exact absurd rfl h2
  | cons c cs =>
    rw [List.cons_append, List.takeWhile_cons,
      if_pos (h2s c (List.mem_cons_self c cs))]
    simp

theorem reSearch_regular_iff :
    ∀ s : List Char, (∃ r, reSearch matchRegularAt s = some r) ↔ HasOwnerRepo s
  | [] => by
    constructor
    · intro ⟨r, h⟩
      rw [show reSearch matchRegularAt [] = matchRegularAt [] from rfl] at h
      rw [show matchRegularAt [] = none from rfl] at h
      exact absurd h (by simp)
    · intro ⟨pre, g1, g2, post, hs, _⟩
      exact absurd hs.symm (by simp [ghLit])
  | c :: cs => by
    constructor
    · intro ⟨r, h⟩
      cases hm : matchRegularAt (c :: cs) with
      | some r2 =>
        obtain ⟨g1, g2, post, hdec, h1, h1s, h2, h2s⟩ := matchRegularAt_decomp _ _ hm
        exact ⟨[], g1, g2, post, by rw [List.nil_append, ← hdec], h1, h1s, h2, h2s⟩
      | none =>
        rw [reSearch_cons_none _ _ _ hm] at h
        obtain ⟨pre, g1, g2, post, hdec, h1, h1s, h2, h2s⟩ :=
          (reSearch_regular_iff cs).mp ⟨r, h⟩
        exact ⟨c :: pre, g1, g2, post, by rw [List.cons_append, ← hdec], h1, h1s, h2, h2s⟩
    · intro ⟨pre, g1, g2, post, hdec, h1, h1s, h2, h2s⟩
      cases hm : matchRegularAt (c :: cs) with
      | some r2 => exact ⟨r2, reSearch_cons_some _ _ _ _ hm⟩
      | none =>
        rw [reSearch_cons_none _ _ _ hm]
        apply (reSearch_regular_iff cs).mpr
        cases pre with
        | nil =>
          exfalso
          obtain ⟨r2, hr2⟩ := matchRegularAt_of_decomp g1 g2 post h1 h1s h2 h2s
          rw [List.nil_append] at hdec
          rw [hdec] at hm
          rw [hm] at hr2
          exact absurd hr2 (by simp)
        | cons c2 pre2 =>
          rw [List.cons_append] at hdec
          injection hdec with _ htail
          exact ⟨pre2, g1, g2, post, htail, h1, h1s, h2, h2s⟩

theorem parse_append_slash (url : String) :
    parse_github_url (url ++ "/") = parse_github_url url := by
  unfold parse_github_url
  rw [show (url ++ "/").data = url.data ++ ['/'] from rfl]
  rw [rstrip_append_slash]

theorem rev_head_in {a b : List Char} (hb : b ≠ []) (c : Char) (cs : List Char)
    (h : (a ++ b).reverse = c :: cs) : c ∈ b := by
  rw [List.reverse_append] at h
  cases hbr : b.reverse with
  | nil =>
    have : b = [] := by simpa using congrArg List.reverse hbr
    exact absurd this hb
  | cons d ds =>
    rw [hbr, List.cons_append] at h
    injection h with h1 _
    rw [← h1]
    have hmem : d ∈ b.reverse := by rw [hbr]; exact List.mem_cons_self _ _
    exact List.mem_reverse.mp hmem

theorem countP_zero_of_notSlash (l : List Char) (h : ∀ x ∈ l, notSlash x = true) :
    List.countP (fun c => c == '/') l = 0 := by
  rw [List.countP_eq_zero]
  intro a ha
  have := h a ha
  revert this
  unfold notSlash
  cases a == '/' <;> simp

/-- Parsing a bare repository URL `https://github.com/owner/repo`. -/
theorem parse_bare_url (o r : String) (ho : GoodSeg o) (hr : GoodSeg r) :
    parse_github_url ("https://github.com/" ++ o ++ "/" ++ r) =
      .ok (o, pyReplace ".git" "" r, "") := by
  have hdataP : ("https://github.com/" ++ o ++ "/" ++ r).data =
      ("https://".data ++ ghLit ++ o.data ++ ['/']) ++ r.data := by
    simp only [str_data_append]
    simp [ghLit, List.append_assoc]
  have hdata : ("https://github.com/" ++ o ++ "/" ++ r).data =
      "https://".data ++ (ghLit ++ (o.data ++ '/' :: r.data)) := by
    rw [hdataP]
    simp [ghLit, List.append_assoc]
  have hrs : rstripSlashL (("https://github.com/" ++ o ++ "/" ++ r).data) =
      ("https://github.com/" ++ o ++ "/" ++ r).data := by
    apply rstrip_eq_self
    intro c cs hrev
    rw [hdataP] at hrev
    have hc := rev_head_in hr.1 c cs hrev
    have := hr.2 c hc
    revert this
    unfold notSlash
    cases c == '/' <;> simp
  have hcount : countSlash (("https://github.com/" ++ o ++ "/" ++ r).data) = 4 := by
    rw [hdataP]
    unfold countSlash
    simp only [List.countP_append]
    have h1 : List.countP (fun c => c == '/') "https://".data = 2 := by decide
    have h2 : List.countP (fun c => c == '/') ghLit = 1 := by decide
    have h3 : List.countP (fun c => c == '/') ['/'] = 1 := by decide
    rw [h1, h2, h3, countP_zero_of_notSlash o.data ho.2, countP_zero_of_notSlash r.data hr.2]
  have htree : reSearch matchTreeAt (("https://github.com/" ++ o ++ "/" ++ r).data) = none := by
    cases hmt : reSearch matchTreeAt (("https://github.com/" ++ o ++ "/" ++ r).data) with
    | none => rfl
    | some x =>
      obtain ⟨pre, t, hsplit, hmatch⟩ := reSearch_some_suffix _ _ _ hmt
      have h5 := matchTreeAt_five_slashes _ _ hmatch
      have hle := countSlash_suffix_le pre t
      rw [← hsplit, hcount] at hle
      omega
  have htw : r.data.takeWhile notSlash = r.data := takeWhile_all r.data hr.2
  have hm : matchRegularAt (ghLit ++ (o.data ++ '/' :: r.data)) = some (o, r) := by
    rw [matchRegularAt_hit o.data r.data ho.1 ho.2 (by rw [htw]; exact hr.1)]
    rw [htw]
  have hreg : reSearch matchRegularAt (("https://github.com/" ++ o ++ "/" ++ r).data) =
      some (o, r) := by
    rw [hdata]
    rw [reSearch_skip_https matchRegularAt matchRegularAt_ne_g]
    exact reSearch_cons_some matchRegularAt 'g' ("ithub.com/".data ++ (o.data ++ '/' :: r.data))
      (o, r) hm
  unfold parse_github_url
  rw [hrs, htree, hreg]

theorem rev_head_append {a b : List Char} (hb : b ≠ []) (c : Char) (cs : List Char)
    (h : (a ++ b).reverse = c :: cs) : ∃ ds, b.reverse = c :: ds := by
  rw [List.reverse_append] at h
  cases hbr : b.reverse with
  | nil =>
    have : b = [] := by simpa using congrArg List.reverse hbr
    exact absurd this hb
  | cons d ds =>
    rw [hbr, List.cons_append] at h
    injection h with h1 _
    exact ⟨ds, by rw [h1]⟩

/-- Parsing a tree-style URL
`https://github.com/owner/repo/tree/branch/sub/path`. -/
theorem parse_tree_url (o r b p : String) (ho : GoodSeg o) (hr : GoodSeg r)
    (hb : GoodSeg b) (hp : GoodTail p) :
    parse_github_url
        ("https://github.com/" ++ o ++ "/" ++ r ++ "/tree/" ++ b ++ "/" ++ p) =
      .ok (o, pyReplace ".git" "" r, p) := by
  have hdataP : ("https://github.com/" ++ o ++ "/" ++ r ++ "/tree/" ++ b ++ "/" ++ p).data =
      ("https://".data ++ ghLit ++ o.data ++ ['/'] ++ r.data ++ "/tree/".data ++
        b.data ++ ['/']) ++ p.data := by
    simp only [str_data_append]
    simp [ghLit, List.append_assoc]
  have hdata : ("https://github.com/" ++ o ++ "/" ++ r ++ "/tree/" ++ b ++ "/" ++ p).data =
      "https://".data ++ (ghLit ++ (o.data ++ '/' ::
        (r.data ++ ('/' :: ("tree/".data ++ (b.data ++ '/' :: p.data)))))) := by
    rw [hdataP]
    simp [ghLit, List.append_assoc]
  have hrs : rstripSlashL
      (("https://github.com/" ++ o ++ "/" ++ r ++ "/tree/" ++ b ++ "/" ++ p).data) =
      ("https://github.com/" ++ o ++ "/" ++ r ++ "/tree/" ++ b ++ "/" ++ p).data := by
    apply rstrip_eq_self
    intro c cs hrev
    rw [hdataP] at hrev
    obtain ⟨ds, hds⟩ := rev_head_append hp.1 c cs hrev
    exact hp.2.2 c ds hds
  have hmt : matchTreeAt (ghLit ++ (o.data ++ '/' ::
      (r.data ++ ('/' :: ("tree/".data ++ (b.data ++ '/' :: p.data)))))) =
      some (o, r, p) := by
    rw [matchTreeAt_hit o.data r.data b.data p.data ho.1 ho.2 hr.1 hr.2 hb.1 hb.2
      hp.1 hp.2.1]
  have htree : reSearch matchTreeAt
      (("https://github.com/" ++ o ++ "/" ++ r ++ "/tree/" ++ b ++ "/" ++ p).data) =
      some (o, r, p) := by
    rw [hdata, reSearch_skip_https matchTreeAt matchTreeAt_ne_g]
    exact reSearch_cons_some matchTreeAt 'g'
      ("ithub.com/".data ++ (o.data ++ '/' ::
        (r.data ++ ('/' :: ("tree/".data ++ (b.data ++ '/' :: p.data)))))) (o, r, p) hmt
  unfold parse_github_url
  rw [hrs, htree]

theorem replCore_no_occ (p : Char) (ps new : List Char) :
    ∀ s, containsSubL (p :: ps) s = false → replCore p ps new s = s := by
  intro s
  induction s with
  | nil => intro _; rw [replCore]
  | cons c cs ih =>
    intro h
    rw [show containsSubL (p :: ps) (c :: cs) =
      (isPre (p :: ps) (c :: cs) || containsSubL (p :: ps) cs) from rfl] at h
    have h1 : isPre (p :: ps) (c :: cs) = false := by
      revert h; cases isPre (p :: ps) (c :: cs) <;> simp
    have h2 : containsSubL (p :: ps) cs = false := by
      revert h; cases containsSubL (p :: ps) cs <;> simp
    rw [replCore, if_neg (by simp [h1]), ih h2]

/-- `.git` is aperiodic: a failed match at a position inside `r` stays a
failed match after `".git"` is appended (no occurrence can straddle the
boundary). -/
theorem isPre_dotgit_boundary (c : Char) (cs : List Char)
    (h : isPre ".git".data (c :: cs) = false) :
    isPre ".git".data ((c :: cs) ++ ".git".data) = false := by
  match cs with
  | [] =>
    rw [show isPre ".git".data ((c :: ([] : List Char)) ++ ".git".data) =
      (('.' == c) && isPre "git".data ".git".data) from rfl]
    rw [show isPre "git".data ".git".data = false from rfl]
    simp
  | [c2] =>
    rw [show isPre ".git".data ((c :: [c2]) ++ ".git".data) =
      (('.' == c) && (('g' == c2) && isPre "it".data ".git".data)) from rfl]
    rw [show isPre "it".data ".git".data = false from rfl]
    simp
  | [c2, c3] =>
    rw [show isPre ".git".data ((c :: [c2, c3]) ++ ".git".data) =
      (('.' == c) && (('g' == c2) && (('i' == c3) && isPre "t".data ".git".data))) from rfl]
    rw [show isPre "t".data ".git".data = false from rfl]
    simp
  | c2 :: c3 :: c4 :: rest =>
    have he : isPre ".git".data ((c :: c2 :: c3 :: c4 :: rest) ++ ".git".data) =
        (('.' == c) && (('g' == c2) && (('i' == c3) && (('t' == c4) &&
          isPre ([] : List Char) (rest ++ ".git".data))))) := rfl
    have he2 : isPre ".git".data (c :: c2 :: c3 :: c4 :: rest) =
        (('.' == c) && (('g' == c2) && (('i' == c3) && (('t' == c4) &&
          isPre ([] : List Char) rest)))) := rfl
    rw [he, show isPre ([] : List Char) (rest ++ ".git".data) = true from rfl]
    rw [he2, show isPre ([] : List Char) rest = true from rfl] at h
    exact h

theorem replCore_dotgit_suffix :
    ∀ s : List Char, containsSubL ".git".data s = false →
      replCore '.' "git".data [] (s ++ ".git".data) = s := by
  intro s
  induction s with
  | nil =>
    intro _
    rw [List.nil_append]
    rw [show (".git".data : List Char) = '.' :: "git".data from rfl]
    rw [replCore]
    rw [if_pos (by decide)]
    rw [show ("git".data.drop "git".data.length : List Char) = [] from rfl]
    rw [replCore]
    rfl
  | cons c cs ih =>
    intro h
    rw [show containsSubL ".git".data (c :: cs) =
      (isPre ".git".data (c :: cs) || containsSubL ".git".data cs) from rfl] at h
    have h1 : isPre ".git".data (c :: cs) = false := by
      revert h; cases isPre ".git".data (c :: cs) <;> simp
    have h2 : containsSubL ".git".data cs = false := by
      revert h; cases containsSubL ".git".data cs <;> simp
    have hb : isPre ('.' :: "git".data) (c :: (cs ++ ".git".data)) = false :=
      isPre_dotgit_boundary c cs h1
    rw [List.cons_append, replCore, if_neg (by simp [hb]), ih h2]

theorem pyReplace_dotgit_id (r : String) (h : NoDotGit r) :
    pyReplace ".git" "" r = r := by
  have h1 : pyReplaceL ".git".data "".data r.data = replCore '.' "git".data [] r.data :=
    pyReplaceL_cons '.' "git".data "".data r.data
  have h2 : containsSubL ('.' :: "git".data) r.data = false := h
  unfold pyReplace
  rw [h1, replCore_no_occ '.' "git".data [] r.data h2]

theorem pyReplace_dotgit_trailing (r : String) (h : NoDotGit r) :
    pyReplace ".git" "" (r ++ ".git") = r := by
  have h1 : pyReplaceL ".git".data "".data (r ++ ".git").data =
      replCore '.' "git".data [] (r ++ ".git").data :=
    pyReplaceL_cons '.' "git".data "".data (r ++ ".git").data
  have h2 : containsSubL ".git".data r.data = false := h
  unfold pyReplace
  rw [h1]
  rw [show (r ++ ".git").data = r.data ++ ".git".data from rfl]
  rw [replCore_dotgit_suffix r.data h2]

/-- `parse_github_url` raises exactly when the slash-stripped input has no
`github.com/owner/repo` segment. -/
theorem parse_error_iff_no_owner_repo (url : String) :
    (∃ e, parse_github_url url = .error e) ↔ ¬ HasOwnerRepo (rstripSlashL url.data) := by
  constructor
  · intro ⟨e, h⟩ hH
    unfold parse_github_url at h
    cases ht : reSearch matchTreeAt (rstripSlashL url.data) with
    | some x =>
      obtain ⟨o2, r2, p2⟩ := x
      rw [ht] at h
      simp at h
    | none =>
      rw [ht] at h
      cases hr : reSearch matchRegularAt (rstripSlashL url.data) with
      | some x =>
        obtain ⟨o2, r2⟩ := x
        rw [hr] at h
        simp at h
      | none =>
        obtain ⟨rr, hrr⟩ := (reSearch_regular_iff _).mpr hH
        rw [hr] at hrr
        exact absurd hrr (by simp)
  · intro hH
    have hreg : reSearch matchRegularAt (rstripSlashL url.data) = none := by
      cases hr : reSearch matchRegularAt (rstripSlashL url.data) with
      | none => rfl
      | some x => exact absurd ((reSearch_regular_iff _).mp ⟨x, hr⟩) hH
    have htree : reSearch matchTreeAt (rstripSlashL url.data) = none := by
      cases ht : reSearch matchTreeAt (rstripSlashL url.data) with
      | none => rfl
      | some x =>
        obtain ⟨pre, t, hsplit, hmatch⟩ := reSearch_some_suffix _ _ _ ht
        obtain ⟨g1, g2, b2, r7, hdec, h1, h1s, h2, h2s⟩ := matchTreeAt_decomp _ _ hmatch
        exact absurd ⟨pre, g1, g2, "/tree/".data ++ (b2 ++ '/' :: r7),
          by rw [hsplit, hdec], h1, h1s, h2, h2s⟩ hH
    refine ⟨"Invalid GitHub URL format", ?_⟩
    unfold parse_github_url
    rw [htree, hreg]

/-- C5 counterexample: the source strips `.git` with `str.replace`, which
removes every occurrence, not only a trailing suffix. For the bare URL
`https://github.com/owner/a.gitb.git` the extracted repo name is `ab`,
whereas the claim ("leaving any interior occurrence of .git in the name
intact") demands `a.gitb`. -/
theorem parse_github_url_counterexample :
    parse_github_url "https://github.com/owner/a.gitb.git" = .ok ("owner", "ab", "") ∧
    "ab" ≠ "a.gitb" := by
  exact ⟨rfl, by decide⟩

/-- C5 amended: `parse_github_url` accepts both bare and tree-style URLs,
strips trailing slashes from the input, removes EVERY occurrence of `.git`
from the extracted repo name (so a trailing `.git` is stripped, but interior
occurrences are removed as well), and raises an invalid-reference error
exactly when neither URL shape yields an owner/repo segment after
`github.com/`. -/
theorem parse_github_url_amended :
    (∀ url : String, parse_github_url (url ++ "/") = parse_github_url url) ∧
    (∀ o r : String, GoodSeg o → GoodSeg r →
      parse_github_url ("https://github.com/" ++ o ++ "/" ++ r) =
        .ok (o, pyReplace ".git" "" r, "")) ∧
    (∀ o r b p : String, GoodSeg o → GoodSeg r → GoodSeg b → GoodTail p →
      parse_github_url
          ("https://github.com/" ++ o ++ "/" ++ r ++ "/tree/" ++ b ++ "/" ++ p) =
        .ok (o, pyReplace ".git" "" r, p)) ∧
    (∀ r : String, NoDotGit r →
      pyReplace ".git" "" (r ++ ".git") = r ∧ pyReplace ".git" "" r = r) ∧
    pyReplace ".git" "" "a.gitb.git" = "ab" ∧
    (∀ url : String,
      (∃ e, parse_github_url url = .error e) ↔ ¬ HasOwnerRepo (rstripSlashL url.data)) := by
  refine ⟨parse_append_slash, parse_bare_url, parse_tree_url, ?_, rfl,
    parse_error_iff_no_owner_repo⟩
  intro r h
  exact ⟨pyReplace_dotgit_trailing r h, pyReplace_dotgit_id r h⟩

theorem parse_github_url_amended_witness :
    parse_github_url "https://github.com/own/repo" = .ok ("own", "repo", "") ∧
    parse_github_url "https://github.com/own/repo/tree/main/src/a.py" =
      .ok ("own", "repo", "src/a.py") ∧
    pyReplace ".git" "" ("repo" ++ ".git") = "repo" ∧
    ¬ HasOwnerRepo (rstripSlashL ("https://example.com/a" : String).data) := by
  refine ⟨parse_github_url_amended.2.1 "own" "repo" ⟨by decide, by decide⟩
      ⟨by decide, by decide⟩,
    parse_github_url_amended.2.2.1 "own" "repo" "main" "src/a.py"
      ⟨by decide, by decide⟩ ⟨by decide, by decide⟩ ⟨by decide, by decide⟩
      ⟨by decide, by decide, ?tail⟩,
    (parse_github_url_amended.2.2.2.1 "repo"
      (show containsSub "repo" ".git" = false by decide)).1,
    (parse_github_url_amended.2.2.2.2.2 "https://example.com/a").mp
      ⟨"Invalid GitHub URL format", rfl⟩⟩
  case tail =>
    intro c cs h
    have h2 : ('y' : Char) :: ['p', '.', 'a', '/', 'c', 'r', 's'] = c :: cs := h
    injection h2 with h1 _
    rw [← h1]
    decide

theorem updateRow_keyConflict (pn lang fp : String) (u : Option String)
    (cand r : StoredRow) :
    keyConflict pn lang fp u (updateRow cand r) = keyConflict pn lang fp u r := rfl

theorem any_keyeq_map (l : List StoredRow) (f : StoredRow → StoredRow)
    (p : StoredRow → Bool) (hf : ∀ r, p (f r) = p r) : (l.map f).any p = l.any p := by
  induction l with
  | nil => rfl
  | cons r rs ih => simp [hf, ih]

theorem upsertOne_rows_any_mono (db : SolutionsTable) (sol : AnalysisDict)
    (u : Option String) (p : StoredRow → Bool)
    (hp : ∀ cand r, p (updateRow cand r) = p r)
    (h : db.rows.any p = true) : ((upsertOne db sol u).2).rows.any p = true := by
  unfold upsertOne
  split
  · show (db.rows.map _).any p = true
    rw [any_keyeq_map]
    · exact h
    · intro r
      by_cases hcr : keyConflict (sol.problem_number.getD "Unknown")
          (sol.language.getD "Unknown") (sol.path.getD "") u r = true
      · rw [if_pos hcr]; exact hp _ r
      · rw [if_neg hcr]
  · show (db.rows ++ [rowOfDict sol u db.clock]).any p = true
    rw [List.any_append, h]
    rfl

theorem upsertOne_establishes (db : SolutionsTable) (sol : AnalysisDict) (s : String) :
    ((upsertOne db sol (some s)).2).rows.any
      (keyConflict (sol.problem_number.getD "Unknown") (sol.language.getD "Unknown")
        (sol.path.getD "") (some s)) = true := by
  unfold upsertOne
  split
  · rename_i hC
    show (db.rows.map _).any _ = true
    rw [any_keyeq_map]
    · exact hC
    · intro r
      by_cases hcr : keyConflict (sol.problem_number.getD "Unknown")
          (sol.language.getD "Unknown") (sol.path.getD "") (some s) r = true
      · rw [if_pos hcr]; rfl
      · rw [if_neg hcr]
  · show (db.rows ++ [rowOfDict sol (some s) db.clock]).any _ = true
    rw [List.any_append]
    have : keyConflict (sol.problem_number.getD "Unknown") (sol.language.getD "Unknown")
        (sol.path.getD "") (some s) (rowOfDict sol (some s) db.clock) = true := by
      simp [keyConflict, rowOfDict]
    simp [this]

theorem store_rows_any_mono (u : Option String) (p : StoredRow → Bool)
    (hp : ∀ cand r, p (updateRow cand r) = p r) :
    ∀ (sols : List AnalysisDict) (db : SolutionsTable), db.rows.any p = true →
      ((store_in_database sols u db).2.2).rows.any p = true
  | [], _ => fun h => h
  | sol :: rest, db => by
    intro h
    have h1 := upsertOne_rows_any_mono db sol u p hp h
    have h2 := store_rows_any_mono u p hp rest (upsertOne db sol u).2 h1
    simp only [store_in_database]
    split <;> exact h2

theorem store_establishes (s : String) :
    ∀ (sols : List AnalysisDict) (db : SolutionsTable) (sol : AnalysisDict), sol ∈ sols →
      ((store_in_database sols (some s) db).2.2).rows.any
        (keyConflict (sol.problem_number.getD "Unknown") (sol.language.getD "Unknown")
          (sol.path.getD "") (some s)) = true
  | [], _, sol => by intro h; simp at h
  | sol0 :: rest, db, sol => by
    intro hmem
    rcases List.mem_cons.mp hmem with h | h
    · subst h
      have h1 := upsertOne_establishes db sol s
      have h2 := store_rows_any_mono (some s) _
        (fun cand r => updateRow_keyConflict _ _ _ _ cand r) rest
        (upsertOne db sol (some s)).2 h1
      simp only [store_in_database]
      split <;> exact h2
    · have h2 := store_establishes s rest (upsertOne db sol0 (some s)).2 sol h
      simp only [store_in_database]
      split <;> exact h2

theorem store_all_updates (s : String) :
    ∀ (sols : List AnalysisDict) (db : SolutionsTable),
      (∀ sol ∈ sols, db.rows.any (keyConflict (sol.problem_number.getD "Unknown")
        (sol.language.getD "Unknown") (sol.path.getD "") (some s)) = true) →
      (store_in_database sols (some s) db).1 = 0 ∧
      (store_in_database sols (some s) db).2.1 = sols.length
  | [], _ => fun _ => ⟨rfl, rfl⟩
  | sol0 :: rest, db => by
    intro H
    have hc := H sol0 (List.mem_cons_self _ _)
    have hfalse : (upsertOne db sol0 (some s)).1 = false := by
      unfold upsertOne
      rw [if_pos hc]
    have hrest : ∀ sol ∈ rest,
        ((upsertOne db sol0 (some s)).2).rows.any
          (keyConflict (sol.problem_number.getD "Unknown") (sol.language.getD "Unknown")
            (sol.path.getD "") (some s)) = true :=
      fun sol hm => upsertOne_rows_any_mono db sol0 (some s) _
        (fun cand r => updateRow_keyConflict _ _ _ _ cand r)
        (H sol (List.mem_cons_of_mem _ hm))
    have ih := store_all_updates s rest (upsertOne db sol0 (some s)).2 hrest
    simp only [store_in_database, hfalse, if_false]
    exact ⟨ih.1, by rw [ih.2]; rfl⟩

theorem TableKeyUnique_empty : TableKeyUnique emptyTable := List.Pairwise.nil

theorem TableKeyUnique_upsertOne (db : SolutionsTable) (sol : AnalysisDict)
    (u : Option String) (h : TableKeyUnique db) :
    TableKeyUnique (upsertOne db sol u).2 := by
  unfold TableKeyUnique at h ⊢
  unfold upsertOne
  split
  · rename_i hC
    show (db.rows.map _).Pairwise _
    rw [List.pairwise_map]
    apply h.imp
    intro a b hab hsk
    apply hab
    have kpn : ∀ g : StoredRow,
        (if keyConflict (sol.problem_number.getD "Unknown") (sol.language.getD "Unknown")
            (sol.path.getD "") u g then updateRow (rowOfDict sol u db.clock) g
         else g).problem_number = g.problem_number := by
      intro g
      by_cases hg : keyConflict (sol.problem_number.getD "Unknown")
          (sol.language.getD "Unknown") (sol.path.getD "") u g = true
      · rw [if_pos hg]; rfl
      · rw [if_neg hg]
    have klang : ∀ g : StoredRow,
        (if keyConflict (sol.problem_number.getD "Unknown") (sol.language.getD "Unknown")
            (sol.path.getD "") u g then updateRow (rowOfDict sol u db.clock) g
         else g).language = g.language := by
      intro g
      by_cases hg : keyConflict (sol.problem_number.getD "Unknown")
          (sol.language.getD "Unknown") (sol.path.getD "") u g = true
      · rw [if_pos hg]; rfl
      · rw [if_neg hg]
    have kfp : ∀ g : StoredRow,
        (if keyConflict (sol.problem_number.getD "Unknown") (sol.language.getD "Unknown")
            (sol.path.getD "") u g then updateRow (rowOfDict sol u db.clock) g
         else g).file_path = g.file_path := by
      intro g
      by_cases hg : keyConflict (sol.problem_number.getD "Unknown")
          (sol.language.getD "Unknown") (sol.path.getD "") u g = true
      · rw [if_pos hg]; rfl
      · rw [if_neg hg]
    have kue : ∀ g : StoredRow,
        (if keyConflict (sol.problem_number.getD "Unknown") (sol.language.getD "Unknown")
            (sol.path.getD "") u g then updateRow (rowOfDict sol u db.clock) g
         else g).user_email = g.user_email := by
      intro g
      by_cases hg : keyConflict (sol.problem_number.getD "Unknown")
          (sol.language.getD "Unknown") (sol.path.getD "") u g = true
      · rw [if_pos hg]; rfl
      · rw [if_neg hg]
    unfold sameKey at hsk ⊢
    rw [kpn, kpn, klang, klang, kfp, kfp, kue, kue] at hsk
    exact hsk
  · rename_i hC
    show (db.rows ++ [rowOfDict sol u db.clock]).Pairwise _
    rw [List.pairwise_append]
    refine ⟨h, List.pairwise_singleton _ _, ?_⟩
    intro a ha b hb hsk
    rw [List.mem_singleton] at hb
    subst hb
    obtain ⟨hpn, hlang, hfp, t, hau, hcu⟩ := hsk
    have hu : u = some t := hcu
    apply hC
    rw [List.any_eq_true]
    refine ⟨a, ha, ?_⟩
    unfold keyConflict
    rw [show (rowOfDict sol u db.clock).problem_number = sol.problem_number.getD "Unknown"
      from rfl] at hpn
    rw [show (rowOfDict sol u db.clock).language = sol.language.getD "Unknown"
      from rfl] at hlang
    rw [show (rowOfDict sol u db.clock).file_path = sol.path.getD "" from rfl] at hfp
    rw [hpn, hlang, hfp, hau, hu]
    simp

theorem TableKeyUnique_store (u : Option String) :
    ∀ (sols : List AnalysisDict) (db : SolutionsTable), TableKeyUnique db →
      TableKeyUnique (store_in_database sols u db).2.2
  | [], _ => fun h => h
  | sol :: rest, db => by
    intro h
    have h1 := TableKeyUnique_upsertOne db sol u h
    have h2 := TableKeyUnique_store u rest (upsertOne db sol u).2 h1
    simp only [store_in_database]
    split <;> exact h2

/-- C2 counterexample: with owner user id NULL (the source's default
`user_email=None`, forwarded by `process_repository`), the `ON CONFLICT`
arbiter never fires — PostgreSQL unique indexes treat NULLs as distinct — so
a second identical `store_in_database` call inserts again instead of
updating: `insertedCount` is 1 (claim demands 0), `updatedCount` is 0 (claim
demands 1), and the table now holds two rows with the same
(problemNumber, language, filePath, userId=NULL) key. -/
theorem upsert_idempotence_counterexample :
    (store_in_database [c2sol] none emptyTable).1 = 1 ∧
    (store_in_database [c2sol] none
      (store_in_database [c2sol] none emptyTable).2.2).1 = 1 ∧
    (store_in_database [c2sol] none
      (store_in_database [c2sol] none emptyTable).2.2).2.1 = 0 ∧
    (store_in_database [c2sol] none
      (store_in_database [c2sol] none emptyTable).2.2).2.2.rows.length = 2 ∧
    (1 : Nat) ≠ 0 := by
  exact ⟨rfl, rfl, rfl, rfl, by decide⟩

/-- C2 amended: for every record list and every NON-NULL owner user id,
running `store_in_database` a second time with an identical record list
against the state left by the first call performs zero inserts and exactly
`len(records)` updates, and the store never holds two rows that collide on
the (problemNumber, language, filePath, userId) key — where NULL user ids
never collide, per PostgreSQL's NULLS DISTINCT unique-index semantics (for a
NULL user id idempotence fails: see the C2 counterexample). -/
theorem upsert_idempotent_amended (sols : List AnalysisDict) (u : String) :
    (store_in_database sols (some u)
      (store_in_database sols (some u) emptyTable).2.2).1 = 0 ∧
    (store_in_database sols (some u)
      (store_in_database sols (some u) emptyTable).2.2).2.1 = sols.length ∧
    TableKeyUnique (store_in_database sols (some u) emptyTable).2.2 ∧
    TableKeyUnique (store_in_database sols (some u)
      (store_in_database sols (some u) emptyTable).2.2).2.2 := by
  have hdb1 : ∀ sol ∈ sols,
      ((store_in_database sols (some u) emptyTable).2.2).rows.any
        (keyConflict (sol.problem_number.getD "Unknown") (sol.language.getD "Unknown")
          (sol.path.getD "") (some u)) = true :=
    fun sol hm => store_establishes u sols emptyTable sol hm
  have h2 := store_all_updates u sols (store_in_database sols (some u) emptyTable).2.2 hdb1
  have hu1 := TableKeyUnique_store (some u) sols emptyTable TableKeyUnique_empty
  exact ⟨h2.1, h2.2, hu1, TableKeyUnique_store (some u) sols _ hu1⟩

/-- C6 counterexample: a record whose key — including a NULL ownerUserId —
structurally equals an existing row's key is NOT overwritten: PostgreSQL's
NULLS DISTINCT arbiter sees no conflict, a second row is inserted, and the
existing row keeps its old explanation. The claim's overwrite behaviour fails
for NULL owner ids. -/
theorem upsert_frame_counterexample :
    ((upsertOne (upsertOne emptyTable c6solA none).2 c6solB none).2).rows.map
      (fun r => r.explanation) = ["old", "new"] ∧
    ((upsertOne (upsertOne emptyTable c6solA none).2 c6solB none).2).rows.length = 2 ∧
    ("old" : String) ≠ "new" := by
  exact ⟨rfl, rfl, by decide⟩

/-- C6 amended: for every record carrying a NON-NULL owner user id whose key
(problemNumber, language, filePath, ownerUserId) conflicts with a stored row,
the upsert leaves the row count unchanged and rewrites, at every pre-existing
index, exactly the conflicting rows — setting the nine payload columns
(title, difficulty, both complexities, algorithms, data structures,
explanation, tags, code) from the record — while every row's four key columns
and its creation timestamp survive unchanged, and non-conflicting rows are
untouched (`updateRow`'s field equations, stated in the last conjunct, are
exactly the `DO UPDATE SET` list). -/
theorem upsert_overwrite_frame (db : SolutionsTable) (sol : AnalysisDict) (u : String)
    (i : Nat) (hi : i < db.rows.length) :
    (db.rows.any (keyConflict (sol.problem_number.getD "Unknown")
        (sol.language.getD "Unknown") (sol.path.getD "") (some u)) = true →
      ((upsertOne db sol (some u)).2).rows.length = db.rows.length) ∧
    ((upsertOne db sol (some u)).2).rows[i]? =
      some (if keyConflict (sol.problem_number.getD "Unknown")
          (sol.language.getD "Unknown") (sol.path.getD "") (some u) db.rows[i] then
        updateRow (rowOfDict sol (some u) db.clock) db.rows[i]
      else db.rows[i]) ∧
    (∀ cand r : StoredRow,
      (updateRow cand r).problem_title = cand.problem_title ∧
      (updateRow cand r).difficulty = cand.difficulty ∧
      (updateRow cand r).time_complexity = cand.time_complexity ∧
      (updateRow cand r).space_complexity = cand.space_complexity ∧
      (updateRow cand r).algorithms = cand.algorithms ∧
      (updateRow cand r).data_structures = cand.data_structures ∧
      (updateRow cand r).explanation = cand.explanation ∧
      (updateRow cand r).tags = cand.tags ∧
      (updateRow cand r).code = cand.code ∧
      (updateRow cand r).problem_number = r.problem_number ∧
      (updateRow cand r).language = r.language ∧
      (updateRow cand r).file_path = r.file_path ∧
      (updateRow cand r).user_email = r.user_email ∧
      (updateRow cand r).created_at = r.created_at) := by
  refine ⟨?_, ?_, fun cand r =>
    ⟨rfl, rfl, rfl, rfl, rfl, rfl, rfl, rfl, rfl, rfl, rfl, rfl, rfl, rfl⟩⟩
  · intro hany
    unfold upsertOne
    rw [if_pos hany]
    exact List.length_map _ _
  · unfold upsertOne
    split
    · show ((db.rows.map _)[i]?) = _
      rw [List.getElem?_map]
      rw [List.getElem?_eq_getElem hi]
      rfl
    · show ((db.rows ++ [rowOfDict sol (some u) db.clock])[i]?) = _
      rename_i hC
      have hfalse : keyConflict (sol.problem_number.getD "Unknown")
          (sol.language.getD "Unknown") (sol.path.getD "") (some u) db.rows[i] = false := by
        cases hb : keyConflict (sol.problem_number.getD "Unknown")
            (sol.language.getD "Unknown") (sol.path.getD "") (some u) db.rows[i] with
        | false => rfl
        | true =>
          exfalso
          apply hC
          rw [List.any_eq_true]
          exact ⟨db.rows[i], List.getElem_mem hi, hb⟩
      rw [List.getElem?_append_left hi]
      rw [List.getElem?_eq_getElem hi]
      rw [if_neg (by simp [hfalse])]

theorem upsert_overwrite_frame_witness :
    (0 : Nat) < ((upsertOne emptyTable c6wsol (some "u")).2).rows.length ∧
    ((upsertOne (upsertOne emptyTable c6wsol (some "u")).2 c6wsol (some "u")).2).rows.length =
      ((upsertOne emptyTable c6wsol (some "u")).2).rows.length := by
  have h := upsert_overwrite_frame (upsertOne emptyTable c6wsol (some "u")).2 c6wsol "u" 0
    (by decide)
  exact ⟨by decide, h.1 (by decide)⟩

/-- C4 counterexample: the repository reference parses and the source is
reachable (the scan yields one file), yet the run produces an outright
failure — `storageFailed`, no summary — because the persistence stage's
connection error aborts the run (gemini_integration.py:543-547 returns on a
`store_in_database` exception). Persistence-stage errors are therefore not
absorbed, refuting the claim. -/
theorem process_repository_counterexample :
    (process_repository c4env "https://github.com/o/r" none).1 =
      RunOutcome.storageFailed ∧
    RunOutcome.storageFailed.isComplete = false ∧
    parse_github_url "https://github.com/o/r" = .ok ("o", "r", "") ∧
    (scan_repository c4env.fetch (c4env.tree "o" "r" "")).length = 1 := by
  exact ⟨rfl, rfl, rfl, rfl⟩

/-- C4 amended: the caller receives the summary (`complete`, carrying the
found/analyzed/inserted/updated counts) whenever the connectivity test
passes, the reference parses, the scan yields at least one file, and the
database connections for setup and storage succeed — in particular for EVERY
generation-call and decoding oracle, so errors in the annotation stage never
abort the run. A failed connectivity test, a malformed reference, an empty
scan, a database-setup error, or a storage connection error each produce an
outright failure response instead (the latter three beyond what the claim
allowed). -/
theorem process_repository_amended (env : PipelineEnv) (url : String)
    (user : Option String) (o r p : String)
    (hnet : env.net_ok = true)
    (hparse : parse_github_url url = .ok (o, r, p))
    (hscan : scan_repository env.fetch (env.tree o r p) ≠ [])
    (hsetup : env.db_setup_ok = true)
    (hconn : env.store_conn_ok = true) :
    (∃ ins upd, (process_repository env url user).1 =
      RunOutcome.complete
        (scan_repository env.fetch (env.tree o r p)).length
        ((analyze_with_gemini env.api env.decode
          (scan_repository env.fetch (env.tree o r p))).1).length ins upd) ∧
    ((process_repository env url user).1).isComplete = true := by
  have hempty : (scan_repository env.fetch (env.tree o r p)).isEmpty = false := by
    cases hs : scan_repository env.fetch (env.tree o r p) with
    | nil => exact absurd hs hscan
    | cons a l => rfl
  have hres : process_repository env url user =
      (RunOutcome.complete
        (scan_repository env.fetch (env.tree o r p)).length
        ((analyze_with_gemini env.api env.decode
          (scan_repository env.fetch (env.tree o r p))).1).length
        (store_in_database ((analyze_with_gemini env.api env.decode
          (scan_repository env.fetch (env.tree o r p))).1) user env.db).1
        (store_in_database ((analyze_with_gemini env.api env.decode
          (scan_repository env.fetch (env.tree o r p))).1) user env.db).2.1,
       (store_in_database ((analyze_with_gemini env.api env.decode
          (scan_repository env.fetch (env.tree o r p))).1) user env.db).2.2) := by
    unfold process_repository
    rw [hnet, hparse]
    simp only [Bool.not_true, Bool.false_eq_true, if_false]
    rw [hempty]
    rw [hsetup, hconn]
    simp only [Bool.not_true, Bool.false_eq_true, if_false]
  rw [hres]
  exact ⟨⟨_, _, rfl⟩, rfl⟩

theorem process_repository_amended_witness :
    ((process_repository c4wenv "https://github.com/o/r" none).1).isComplete = true := by
  have h := process_repository_amended c4wenv "https://github.com/o/r" none "o" "r" ""
    rfl rfl (by decide) rfl rfl
  exact h.2
